import Mathlib

/-!
Verification development for the global-funds-data-pipeline maintenance core:
the ISIN priority merge (src/maintenance/merge_isin_master_priority.py),
the security-master status lifecycle
(src/maintenance/merge_security_master_status.py),
the FX-normalized NAV views (src/maintenance/build_nav_data_mart.py) and
the serving publication's latest-NAV selection
(src/maintenance/publish_ready_isin_serving.py).

Python/SQL constructs are shallowly embedded:
strings are Lean `String` (the data handled by these scripts is ASCII, so
ASCII case mapping models Python's `str.upper`), dates are `Int` day numbers
(the scripts compare ISO `YYYY-MM-DD` strings, whose lexicographic order
agrees with day order), SQL NULL is `Option`, numeric prices and FX rates
are `ℚ` (exact decimals), Python dicts are association lists with
insertion-order-preserving update, and SQL result sets are `List`s.
-/

/-- Characters Python's `str.strip()` removes: code points with the Unicode
whitespace property, including NBSP (U+00A0) and NEL (U+0085). -/
def isPySpace (c : Char) : Bool :=
  c = ' ' || c = '\t' || c = '\n' || (0xb ≤ c.toNat && c.toNat ≤ 0xd) ||
  (0x1c ≤ c.toNat && c.toNat ≤ 0x1f) || c.toNat = 0x85 || c.toNat = 0xa0 ||
  (0x2000 ≤ c.toNat && c.toNat ≤ 0x200a) || c.toNat = 0x1680 ||
  c.toNat = 0x2028 || c.toNat = 0x2029 || c.toNat = 0x202f ||
  c.toNat = 0x205f || c.toNat = 0x3000

/-- Python `s.strip()`: drop leading and trailing whitespace characters. -/
def pyStrip (s : String) : String :=
  ⟨((s.data.dropWhile isPySpace).reverse.dropWhile isPySpace).reverse⟩

/-- Python `s.upper()` restricted to ASCII case mapping (all placeholder
markers and source names in the scripts are ASCII). -/
def pyUpper (s : String) : String :=
  ⟨s.data.map Char.toUpper⟩

/-- NULL_MARKERS from merge_isin_master_priority.py line 13. -/
def NULL_MARKERS : List String :=
  ["", "--", "N/A", "NA", "NONE", "NULL", "NAN"]

/-- PLACEHOLDER_NULLS from merge_security_master_status.py line 15
(the same seven markers). -/
def PLACEHOLDER_NULLS : List String :=
  ["", "--", "N/A", "NA", "NONE", "NULL", "NAN"]

/-- merge_isin_master_priority.py `_norm_text`: strip, then None when empty
or the uppercased result is a placeholder marker. -/
def norm_text_isin (v : Option String) : Option String :=
  if pyStrip (v.getD "") = "" ∨ pyUpper (pyStrip (v.getD "")) ∈ NULL_MARKERS
  then none else some (pyStrip (v.getD ""))

/-- merge_security_master_status.py `_norm_text`: strip, then None when the
uppercased result is a placeholder marker (the empty string is a marker). -/
def norm_text_status (v : Option String) : Option String :=
  if pyUpper (pyStrip (v.getD "")) ∈ PLACEHOLDER_NULLS
  then none else some (pyStrip (v.getD ""))

/-- Python `s.replace(" ", "")`: delete every space character. -/
def removeSpaces (s : String) : String :=
  ⟨s.data.filter (fun c => c ≠ ' ')⟩

/-- merge_isin_master_priority.py `_norm_isin`: normalize text, remove
spaces, uppercase, and require exactly 12 characters. -/
def norm_isin (v : Option String) : Option String :=
  match norm_text_isin v with
  | none => none
  | some s0 =>
      if (pyUpper (removeSpaces s0)).length = 12
      then some (pyUpper (removeSpaces s0)) else none

theorem norm_text_isin_ne_empty {v : Option String} {t : String}
    (h : norm_text_isin v = some t) : t ≠ "" := by
  unfold norm_text_isin at h
  split at h
  · exact absurd h (by simp)
  · rename_i hc
    simp only [Option.some.injEq] at h
    subst h
    intro he
    exact hc (Or.inl he)

theorem norm_isin_length {v : Option String} {i : String}
    (h : norm_isin v = some i) : i.length = 12 := by
  unfold norm_isin at h
  split at h
  · exact absurd h (by simp)
  · split at h
    · rename_i hlen
      simp only [Option.some.injEq] at h
      subst h
      exact hlen
    · exact absurd h (by simp)

theorem norm_isin_ne_empty {v : Option String} {i : String}
    (h : norm_isin v = some i) : i ≠ "" := by
  intro he
  have := norm_isin_length h
  subst he
  simp [String.length] at this

/-- Candidate dataclass from merge_isin_master_priority.py. -/
structure Candidate where
  isin_number : String
  ticker : String
  name : String
  ticker_type : String
  source : String
  source_priority : Nat
  canonical_url : Option String
  ft_ticker : Option String
  mapped_from : Option String := none
deriving Repr, DecidableEq

/-- Row shape returned by the stg_ft_static_detail query (recency-ordered). -/
structure FtStaticRow where
  isin_number : Option String
  ticker : Option String
  name : Option String
  ticker_type : Option String
  url : Option String
  ft_ticker : Option String
deriving Repr, DecidableEq

/-- Row shape returned by the stg_sa_static_info query (recency-ordered). -/
structure SaStaticRow where
  isin_number : Option String
  ticker : Option String
  name : Option String
  asset_type : Option String
deriving Repr, DecidableEq

/-- Row shape returned by the stg_yf_static_identity query. -/
structure YfIdentityRow where
  ticker : Option String
  name : Option String
deriving Repr, DecidableEq

/-- The Candidate built for one accepted FT row (merge_isin_master_priority.py
lines 89-100): Python `x or y` falls through on None, and `_norm_text` never
returns an empty string, so the `or` chains are `Option.getD` chains. -/
def mkFtCandidate (i : String) (r : FtStaticRow) : Candidate :=
  { isin_number := i,
    ticker := (norm_text_isin r.ticker).getD "",
    name := (norm_text_isin r.name).getD ((norm_text_isin r.ticker).getD i),
    ticker_type := (norm_text_isin r.ticker_type).getD "Unknown",
    source := "Financial Times",
    source_priority := 1,
    canonical_url := norm_text_isin r.url,
    ft_ticker := norm_text_isin r.ft_ticker }

/-- Loop of load_ft_candidates: skip invalid or already-seen ISINs, keep the
first (most recent) row per normalized ISIN. -/
def loadFtAux : List FtStaticRow → List String → List Candidate
  | [], _ => []
  | r :: rs, seen =>
      match norm_isin r.isin_number with
      | none => loadFtAux rs seen
      | some i =>
          if i ∈ seen then loadFtAux rs seen
          else mkFtCandidate i r :: loadFtAux rs (i :: seen)

def load_ft_candidates (rows : List FtStaticRow) : List Candidate :=
  loadFtAux rows []

/-- The Candidate built for one accepted SA row (lines 121-132). -/
def mkSaCandidate (i : String) (r : SaStaticRow) : Candidate :=
  { isin_number := i,
    ticker := (norm_text_isin r.ticker).getD "",
    name := (norm_text_isin r.name).getD ((norm_text_isin r.ticker).getD i),
    ticker_type := (norm_text_isin r.asset_type).getD "Unknown",
    source := "Stock Analysis",
    source_priority := 3,
    canonical_url := none,
    ft_ticker := none }

/-- Loop of load_sa_candidates. -/
def loadSaAux : List SaStaticRow → List String → List Candidate
  | [], _ => []
  | r :: rs, seen =>
      match norm_isin r.isin_number with
      | none => loadSaAux rs seen
      | some i =>
          if i ∈ seen then loadSaAux rs seen
          else mkSaCandidate i r :: loadSaAux rs (i :: seen)

def load_sa_candidates (rows : List SaStaticRow) : List Candidate :=
  loadSaAux rows []

/-- Python dict assignment `m[k] = v` on an insertion-ordered dict: update in
place when the key exists, otherwise append. -/
def dinsert (m : List (String × String)) (k v : String) :
    List (String × String) :=
  if m.any (fun p => p.1 = k) then
    m.map (fun p => if p.1 = k then (k, v) else p)
  else m ++ [(k, v)]

/-- Python dict lookup `m.get(k)`. -/
def dget (m : List (String × String)) (k : String) : Option String :=
  (m.find? (fun p => p.1 = k)).map Prod.snd

/-- Loop body shared by both passes of build_ticker_to_isin_map: add the
row's uppercased ticker when the ticker is non-empty. -/
def tickerMapStep (m : List (String × String)) (r : Candidate) :
    List (String × String) :=
  if r.ticker ≠ "" then dinsert m (pyUpper r.ticker) r.isin_number else m

/-- build_ticker_to_isin_map (lines 136-145): SA entries first, then FT
entries overlaid so FT wins mapping precedence. -/
def build_ticker_to_isin_map (ft_rows sa_rows : List Candidate) :
    List (String × String) :=
  ft_rows.foldl tickerMapStep (sa_rows.foldl tickerMapStep [])

/-- The Candidate built for one accepted YF identity row (lines 170-182). -/
def mkYfCandidate (i t : String) (r : YfIdentityRow) : Candidate :=
  { isin_number := i,
    ticker := t,
    name := (norm_text_isin r.name).getD t,
    ticker_type := "Unknown",
    source := "Yahoo Finance",
    source_priority := 2,
    canonical_url := some ("https://finance.yahoo.com/quote/" ++ t),
    ft_ticker := none,
    mapped_from := some "ticker" }

/-- Loop of load_yf_candidates: uppercase the normalized ticker, drop the row
when the ticker is empty or has no entry in the ticker-to-ISIN map, dedupe on
the (isin, ticker) pair. -/
def loadYfAux (mapping : List (String × String)) :
    List YfIdentityRow → List (String × String) → List Candidate
  | [], _ => []
  | r :: rs, seen =>
      if pyUpper ((norm_text_isin r.ticker).getD "") = "" then
        loadYfAux mapping rs seen
      else
        match dget mapping (pyUpper ((norm_text_isin r.ticker).getD "")) with
        | none => loadYfAux mapping rs seen
        | some i =>
            if (i, pyUpper ((norm_text_isin r.ticker).getD "")) ∈ seen then
              loadYfAux mapping rs seen
            else
              mkYfCandidate i (pyUpper ((norm_text_isin r.ticker).getD "")) r ::
                loadYfAux mapping rs
                  ((i, pyUpper ((norm_text_isin r.ticker).getD "")) :: seen)

def load_yf_candidates (rows : List YfIdentityRow)
    (mapping : List (String × String)) : List Candidate :=
  loadYfAux mapping rows []

/-- Python dict overwrite `best[k] = c` when `k` is already a key: the entry
is replaced in place, insertion order kept. -/
def bupdate (m : List (String × Candidate)) (k : String) (c : Candidate) :
    List (String × Candidate) :=
  m.map (fun p => if p.1 = k then (k, c) else p)

/-- Lookup `best.get(k)` on the merge dict. -/
def bget (m : List (String × Candidate)) (k : String) : Option Candidate :=
  (m.find? (fun p => p.1 = k)).map Prod.snd

/-- One iteration of the merge_by_priority loop (lines 196-198): insert when
the ISIN is unseen, replace only when the priority is strictly lower. -/
def mergeStep (best : List (String × Candidate)) (c : Candidate) :
    List (String × Candidate) :=
  match bget best c.isin_number with
  | none => best ++ [(c.isin_number, c)]
  | some prev =>
      if c.source_priority < prev.source_priority then
        bupdate best c.isin_number c
      else best

/-- merge_by_priority (lines 186-201), returning the insertion-ordered dict
whose values `list(best.values())` would yield. -/
def merge_by_priority (cs : List Candidate) : List (String × Candidate) :=
  cs.foldl mergeStep []

/-- One step of selecting the least-priority candidate, first occurrence
winning: the per-key effect of the merge_by_priority loop. -/
def pickStep (acc : Option Candidate) (d : Candidate) : Option Candidate :=
  match acc with
  | none => some d
  | some p => if d.source_priority < p.source_priority then some d else some p

/-- Per-ISIN view of merge_by_priority: fold pickStep over one ISIN group. -/
def pickFirstMin (l : List Candidate) : Option Candidate :=
  l.foldl pickStep none

theorem bget_append (m1 m2 : List (String × Candidate)) (k : String) :
    bget (m1 ++ m2) k = (bget m1 k).or (bget m2 k) := by
  unfold bget
  rw [List.find?_append]
  cases m1.find? (fun p => p.1 = k) <;> simp

theorem bget_eq_none_iff (m : List (String × Candidate)) (k : String) :
    bget m k = none ↔ ∀ p ∈ m, p.1 ≠ k := by
  unfold bget
  simp [List.find?_eq_none]

theorem bget_bupdate (m : List (String × Candidate)) (k j : String)
    (c : Candidate) :
    bget (bupdate m k c) j =
      (bget m j).map (fun v => if j = k then c else v) := by
  unfold bget bupdate
  rw [List.find?_map]
  have hpred :
      ((fun p : String × Candidate => decide (p.1 = j)) ∘
        (fun p : String × Candidate => if p.1 = k then (k, c) else p)) =
      (fun p : String × Candidate => decide (p.1 = j)) := by
    funext p
    by_cases hp : p.1 = k <;> simp [hp]
  rw [hpred]
  cases hfind : m.find? (fun p => p.1 = j) with
  | none => simp
  | some q =>
      have hq : q.1 = j := by
        have := List.find?_some hfind
        simpa using this
      by_cases hjk : j = k <;> simp [hq, hjk]

theorem bget_mergeStep (b : List (String × Candidate)) (c : Candidate)
    (k : String) :
    bget (mergeStep b c) k =
      if k = c.isin_number then pickStep (bget b k) c else bget b k := by
  unfold mergeStep
  split
  · rename_i hb
    rw [bget_append]
    by_cases hk : k = c.isin_number
    · subst hk
      rw [hb]
      simp [bget, pickStep]
    · have hne : c.isin_number ≠ k := fun h => hk h.symm
      have h1 : bget [(c.isin_number, c)] k = none := by simp [bget, hne]
      rw [h1, if_neg hk]
      cases bget b k <;> rfl
  · rename_i prev hb
    by_cases hlt : c.source_priority < prev.source_priority
    · rw [if_pos hlt, bget_bupdate]
      by_cases hk : k = c.isin_number
      · subst hk
        rw [hb]
        simp [pickStep, hlt]
      · rw [if_neg hk]
        cases bget b k <;> simp [hk]
    · rw [if_neg hlt]
      by_cases hk : k = c.isin_number
      · subst hk
        rw [hb]
        simp [pickStep, hlt]
      · rw [if_neg hk]

theorem foldl_mergeStep_bget (cs : List Candidate)
    (b : List (String × Candidate)) (k : String) :
    bget (cs.foldl mergeStep b) k =
      (cs.filter (fun c => c.isin_number = k)).foldl pickStep (bget b k) := by
  induction cs generalizing b with
  | nil => rfl
  | cons c cs ih =>
      rw [List.foldl_cons, ih]
      by_cases hk : c.isin_number = k
      · rw [List.filter_cons_of_pos (by simpa using hk), List.foldl_cons,
          bget_mergeStep, if_pos hk.symm]
      · rw [List.filter_cons_of_neg (by simpa using hk), bget_mergeStep,
          if_neg (fun h => hk h.symm)]

theorem merge_by_priority_bget (cs : List Candidate) (k : String) :
    bget (merge_by_priority cs) k =
      pickFirstMin (cs.filter (fun c => c.isin_number = k)) := by
  unfold merge_by_priority pickFirstMin
  rw [foldl_mergeStep_bget]
  rfl

theorem pick_foldl_some (l : List Candidate) (p : Candidate) :
    (l.foldl pickStep (some p)).isSome := by
  induction l generalizing p with
  | nil => rfl
  | cons d l ih =>
      rw [List.foldl_cons]
      show (l.foldl pickStep
        (if d.source_priority < p.source_priority then some d else some p)).isSome
      split
      · exact ih d
      · exact ih p

theorem pickFirstMin_eq_none_iff (l : List Candidate) :
    pickFirstMin l = none ↔ l = [] := by
  cases l with
  | nil => simp [pickFirstMin]
  | cons d l =>
      constructor
      · intro h
        have hs := pick_foldl_some l d
        rw [show pickFirstMin (d :: l) = l.foldl pickStep (some d) from rfl] at h
        rw [h] at hs
        simp at hs
      · intro h
        simp at h

theorem pick_foldl_spec (l : List Candidate) :
    ∀ (acc : Option Candidate) (c : Candidate),
      l.foldl pickStep acc = some c →
      (acc = some c ∨ c ∈ l) ∧
      (∀ d ∈ l, c.source_priority ≤ d.source_priority) ∧
      (∀ p, acc = some p → c.source_priority ≤ p.source_priority) := by
  induction l with
  | nil =>
      intro acc c h
      simp only [List.foldl_nil] at h
      refine ⟨Or.inl h, by simp, fun p hp => ?_⟩
      rw [h] at hp
      obtain rfl := Option.some.inj hp
      exact le_refl _
  | cons d l ih =>
      intro acc c h
      rw [List.foldl_cons] at h
      cases acc with
      | none =>
          have hstep : pickStep none d = some d := rfl
          rw [hstep] at h
          obtain ⟨hmem, hmin, hacc⟩ := ih (some d) c h
          have hcd : c.source_priority ≤ d.source_priority := hacc d rfl
          refine ⟨Or.inr ?_, fun e he => ?_, fun p hp => by cases hp⟩
          · rcases hmem with h1 | h1
            · obtain rfl := Option.some.inj h1
              exact List.mem_cons_self _ _
            · exact List.mem_cons_of_mem _ h1
          · rcases List.mem_cons.mp he with rfl | he'
            · exact hcd
            · exact hmin e he'
      | some a =>
          by_cases hlt : d.source_priority < a.source_priority
          · have hstep : pickStep (some a) d = some d := by
              simp [pickStep, hlt]
            rw [hstep] at h
            obtain ⟨hmem, hmin, hacc⟩ := ih (some d) c h
            have hcd : c.source_priority ≤ d.source_priority := hacc d rfl
            refine ⟨Or.inr ?_, fun e he => ?_, fun p hp => ?_⟩
            · rcases hmem with h1 | h1
              · obtain rfl := Option.some.inj h1
                exact List.mem_cons_self _ _
              · exact List.mem_cons_of_mem _ h1
            · rcases List.mem_cons.mp he with rfl | he'
              · exact hcd
              · exact hmin e he'
            · obtain rfl := Option.some.inj hp
              exact le_trans hcd (le_of_lt hlt)
          · have hstep : pickStep (some a) d = some a := by
              simp [pickStep, hlt]
            rw [hstep] at h
            obtain ⟨hmem, hmin, hacc⟩ := ih (some a) c h
            have hca : c.source_priority ≤ a.source_priority := hacc a rfl
            refine ⟨?_, fun e he => ?_, fun p hp => ?_⟩
            · rcases hmem with h1 | h1
              · exact Or.inl h1
              · exact Or.inr (List.mem_cons_of_mem _ h1)
            · rcases List.mem_cons.mp he with rfl | he'
              · exact le_trans hca (Nat.le_of_not_lt hlt)
              · exact hmin e he'
            · obtain rfl := Option.some.inj hp
              exact hca

theorem bupdate_keys (m : List (String × Candidate)) (k : String)
    (c : Candidate) :
    (bupdate m k c).map Prod.fst = m.map Prod.fst := by
  induction m with
  | nil => rfl
  | cons p m ih =>
      unfold bupdate at ih ⊢
      by_cases hp : p.1 = k
      · simp only [List.map_cons, if_pos hp, ih]
        rw [hp]
      · simp only [List.map_cons, if_neg hp, ih]

theorem mergeStep_keys_nodup (b : List (String × Candidate)) (c : Candidate)
    (h : (b.map Prod.fst).Nodup) : ((mergeStep b c).map Prod.fst).Nodup := by
  unfold mergeStep
  split
  · rename_i hb
    rw [bget_eq_none_iff] at hb
    rw [List.map_append]
    simp only [List.map_cons, List.map_nil]
    rw [List.nodup_append]
    refine ⟨h, List.nodup_singleton _, ?_⟩
    intro x hx hx'
    simp only [List.mem_singleton] at hx'
    subst hx'
    obtain ⟨p, hp, hpk⟩ := List.mem_map.mp hx
    exact hb p hp hpk
  · split
    · rw [bupdate_keys]
      exact h
    · exact h

theorem merge_keys_nodup (cs : List Candidate) (b : List (String × Candidate))
    (h : (b.map Prod.fst).Nodup) :
    ((cs.foldl mergeStep b).map Prod.fst).Nodup := by
  induction cs generalizing b with
  | nil => exact h
  | cons c cs ih => exact ih _ (mergeStep_keys_nodup b c h)

theorem bget_of_mem_nodup {m : List (String × Candidate)}
    {p : String × Candidate}
    (hnd : (m.map Prod.fst).Nodup) (hp : p ∈ m) : bget m p.1 = some p.2 := by
  induction m with
  | nil => cases hp
  | cons q m ih =>
      rcases List.mem_cons.mp hp with rfl | hp'
      · simp [bget]
      · have hq : q.1 ≠ p.1 := by
          intro he
          have hmem : p.1 ∈ m.map Prod.fst := List.mem_map_of_mem Prod.fst hp'
          rw [← he] at hmem
          exact (List.nodup_cons.mp hnd).1 hmem
        unfold bget
        rw [List.find?_cons_of_neg _ (by simpa using hq)]
        exact ih (List.nodup_cons.mp hnd).2 hp'

theorem merge_entry_spec (cs : List Candidate) (k : String) (c : Candidate)
    (h : (k, c) ∈ merge_by_priority cs) :
    c ∈ cs ∧ c.isin_number = k ∧
      ∀ d ∈ cs, d.isin_number = k →
        c.source_priority ≤ d.source_priority := by
  have hnd : ((merge_by_priority cs).map Prod.fst).Nodup :=
    merge_keys_nodup cs [] (by simp)
  have hb : bget (merge_by_priority cs) k = some c := bget_of_mem_nodup hnd h
  rw [merge_by_priority_bget] at hb
  unfold pickFirstMin at hb
  obtain ⟨hmem, hmin, -⟩ := pick_foldl_spec _ none c hb
  rcases hmem with h1 | h1
  · exact Option.noConfusion h1
  · have hc := List.mem_filter.mp h1
    refine ⟨hc.1, by simpa using hc.2, fun d hd hdk => ?_⟩
    exact hmin d (List.mem_filter.mpr ⟨hd, by simpa using hdk⟩)

theorem mergeStep_no_replace (b : List (String × Candidate)) (c : Candidate)
    (prev : Candidate) (h : bget b c.isin_number = some prev)
    (hnlt : ¬ c.source_priority < prev.source_priority) : mergeStep b c = b := by
  unfold mergeStep
  split
  · rename_i hb
    rw [h] at hb
    exact Option.noConfusion hb
  · rename_i prev' hb
    rw [h] at hb
    obtain rfl := Option.some.inj hb
    rw [if_neg hnlt]

theorem pickFirstMin_perm {l1 l2 : List Candidate} (hp : l1.Perm l2)
    (hinj : ∀ c d, c ∈ l1 → d ∈ l1 →
      c.source_priority = d.source_priority → c = d) :
    pickFirstMin l1 = pickFirstMin l2 := by
  cases h1 : pickFirstMin l1 with
  | none =>
      rw [pickFirstMin_eq_none_iff] at h1
      subst h1
      have h2 : l2 = [] := hp.symm.eq_nil
      rw [h2]
      rfl
  | some c =>
      cases h2 : pickFirstMin l2 with
      | none =>
          rw [pickFirstMin_eq_none_iff] at h2
          subst h2
          have h3 : l1 = [] := hp.eq_nil
          rw [h3] at h1
          exact Option.noConfusion h1
      | some c2 =>
          unfold pickFirstMin at h1 h2
          obtain ⟨hm1, hmin1, -⟩ := pick_foldl_spec l1 none c h1
          obtain ⟨hm2, hmin2, -⟩ := pick_foldl_spec l2 none c2 h2
          rcases hm1 with h | hc1
          · exact Option.noConfusion h
          rcases hm2 with h | hc2
          · exact Option.noConfusion h
          have hc2' : c2 ∈ l1 := (hp.mem_iff).mpr hc2
          have h12 : c.source_priority ≤ c2.source_priority := hmin1 c2 hc2'
          have h21 : c2.source_priority ≤ c.source_priority :=
            hmin2 c (hp.subset hc1)
          rw [hinj c c2 hc1 hc2' (le_antisymm h12 h21)]

theorem merge_by_priority_perm (cs1 cs2 : List Candidate) (hp : cs1.Perm cs2)
    (hinj : ∀ c d, c ∈ cs1 → d ∈ cs1 → c.isin_number = d.isin_number →
      c.source_priority = d.source_priority → c = d) (k : String) :
    bget (merge_by_priority cs1) k = bget (merge_by_priority cs2) k := by
  rw [merge_by_priority_bget, merge_by_priority_bget]
  refine pickFirstMin_perm (hp.filter _) ?_
  intro c d hc hd hpri
  have hc' := List.mem_filter.mp hc
  have hd' := List.mem_filter.mp hd
  have hck : c.isin_number = k := by simpa using hc'.2
  have hdk : d.isin_number = k := by simpa using hd'.2
  exact hinj c d hc'.1 hd'.1 (hck.trans hdk.symm) hpri

/-- Concrete FT candidate used by witnesses (spec scenario 7). -/
def candFT : Candidate :=
  { isin_number := "US1234567890", ticker := "ABC", name := "Alpha Fund",
    ticker_type := "ETF", source := "Financial Times", source_priority := 1,
    canonical_url := none, ft_ticker := some "ABC:NYQ", mapped_from := none }

/-- Concrete YF candidate used by witnesses. -/
def candYF : Candidate :=
  { isin_number := "US1234567890", ticker := "ABC", name := "Alpha Fund",
    ticker_type := "Unknown", source := "Yahoo Finance", source_priority := 2,
    canonical_url := some "https://finance.yahoo.com/quote/ABC",
    ft_ticker := none, mapped_from := some "ticker" }

/-- Concrete SA candidate used by witnesses (spec scenario 7). -/
def candSA : Candidate :=
  { isin_number := "US1234567890", ticker := "ABC", name := "Alpha Fund SA",
    ticker_type := "ETF", source := "Stock Analysis", source_priority := 3,
    canonical_url := none, ft_ticker := none, mapped_from := none }

/-- C2: merge_by_priority keeps at most one candidate per distinct normalized
ISIN (the dict keys are duplicate-free); each kept candidate belongs to the
pool, is keyed by its own ISIN and attains the minimum source_priority of its
ISIN group; a held candidate is replaced only by a strictly lower priority
(equal priority never replaces, so the first-encountered minimum wins); and
when the ISIN groups have pairwise-distinct priorities the winner of every
ISIN is invariant under reordering of the pool. -/
theorem merge_by_priority_correct (cs : List Candidate) :
    ((merge_by_priority cs).map Prod.fst).Nodup ∧
    (∀ k c, (k, c) ∈ merge_by_priority cs →
      c ∈ cs ∧ c.isin_number = k ∧
      ∀ d ∈ cs, d.isin_number = k → c.source_priority ≤ d.source_priority) ∧
    (∀ b c prev, bget b c.isin_number = some prev →
      ¬ c.source_priority < prev.source_priority → mergeStep b c = b) ∧
    (∀ cs2, cs.Perm cs2 →
      (∀ c d, c ∈ cs → d ∈ cs → c.isin_number = d.isin_number →
        c.source_priority = d.source_priority → c = d) →
      ∀ k, bget (merge_by_priority cs) k = bget (merge_by_priority cs2) k) :=
  ⟨merge_keys_nodup cs [] (by simp),
   fun k c h => merge_entry_spec cs k c h,
   fun b c prev h hn => mergeStep_no_replace b c prev h hn,
   fun cs2 hp hinj k => merge_by_priority_perm cs cs2 hp hinj k⟩

/-- Witness for C2 at the spec's scenario 7: FT and SA share one ISIN, the FT
record wins with the minimum priority, and swapping the pool order does not
change the winner. -/
theorem merge_by_priority_correct_witness :
    (candFT ∈ [candFT, candSA] ∧ candFT.isin_number = "US1234567890" ∧
      ∀ d ∈ [candFT, candSA], d.isin_number = "US1234567890" →
        candFT.source_priority ≤ d.source_priority) ∧
    bget (merge_by_priority [candFT, candSA]) "US1234567890" =
      bget (merge_by_priority [candSA, candFT]) "US1234567890" := by
  constructor
  · exact (merge_by_priority_correct [candFT, candSA]).2.1 "US1234567890"
      candFT (by decide)
  · refine (merge_by_priority_correct [candFT, candSA]).2.2.2 [candSA, candFT]
      (List.Perm.swap candSA candFT []) ?_ "US1234567890"
    intro c d hc hd _ hpri
    simp only [List.mem_cons, List.not_mem_nil, or_false] at hc hd
    rcases hc with rfl | rfl <;> rcases hd with rfl | rfl
    · rfl
    · exact absurd hpri (by decide)
    · exact absurd hpri (by decide)
    · rfl

/-- Splitter into maximal runs of non-whitespace characters, used to state
the collapse-internal-whitespace behaviour the spec ascribes to
normalize_text. -/
def wordsPyAux : List Char → List Char → List (List Char)
  | [], acc => if acc.isEmpty then [] else [acc.reverse]
  | c :: cs, acc =>
      if isPySpace c then
        if acc.isEmpty then wordsPyAux cs []
        else acc.reverse :: wordsPyAux cs []
      else wordsPyAux cs (c :: acc)

/-- normalize_text as the spec words it (trim, collapse internal whitespace
and NBSP to single spaces, then placeholder markers to None); stated for the
refinement comparison against the code's `_norm_text`. -/
def normalize_text_spec (v : Option String) : Option String :=
  if pyUpper (String.intercalate " "
      ((wordsPyAux (v.getD "").data []).map List.asString)) ∈ NULL_MARKERS
  then none
  else some (String.intercalate " "
      ((wordsPyAux (v.getD "").data []).map List.asString))

/-- C9 counterexample: on "a  b" (two internal spaces) `_norm_text` keeps the
internal whitespace unchanged, while the spec's collapsing normalize_text
would return "a b", so the two functions differ. -/
theorem norm_text_collapse_counterexample :
    norm_text_isin (some "a  b") = some "a  b" ∧
    normalize_text_spec (some "a  b") = some "a b" ∧
    ¬ (∀ v, norm_text_isin v = normalize_text_spec v) := by
  refine ⟨by decide, by decide, fun h => ?_⟩
  have h2 := h (some "a  b")
  rw [show norm_text_isin (some "a  b") = some "a  b" from by decide,
      show normalize_text_spec (some "a  b") = some "a b" from by decide] at h2
  exact absurd (Option.some.inj h2) (by decide)

/-- C9 amended: `_norm_text` trims leading and trailing whitespace and NBSP
but does not collapse internal whitespace; it returns None exactly when the
trimmed string uppercases to a member of the placeholder set, and otherwise
returns the trimmed (non-empty) string; the two copies of the function in
merge_isin_master_priority.py and merge_security_master_status.py agree. -/
theorem norm_text_amended (v : Option String) :
    norm_text_status v = norm_text_isin v ∧
    (norm_text_isin v = none ↔
      pyUpper (pyStrip (v.getD "")) ∈ NULL_MARKERS) ∧
    (∀ t, norm_text_isin v = some t → t = pyStrip (v.getD "") ∧ t ≠ "") := by
  refine ⟨?_, ?_, ?_⟩
  · unfold norm_text_status norm_text_isin NULL_MARKERS PLACEHOLDER_NULLS
    by_cases h1 : pyStrip (v.getD "") = ""
    · rw [h1]
      decide
    · simp [h1]
  · unfold norm_text_isin
    by_cases h1 : pyStrip (v.getD "") = ""
    · rw [h1]
      decide
    · by_cases h2 : pyUpper (pyStrip (v.getD "")) ∈ NULL_MARKERS <;>
        simp [h1, h2]
  · intro t ht
    constructor
    · unfold norm_text_isin at ht
      split at ht
      · exact absurd ht (by simp)
      · exact (Option.some.inj ht).symm
    · exact norm_text_isin_ne_empty ht

/-- Witness for C9's amended theorem at the concrete input " Alpha ". -/
theorem norm_text_amended_witness :
    norm_text_status (some " Alpha ") = norm_text_isin (some " Alpha ") ∧
    "Alpha" = pyStrip ((some " Alpha ").getD "") ∧ ("Alpha" : String) ≠ "" := by
  obtain ⟨h1, _, h3⟩ := norm_text_amended (some " Alpha ")
  exact ⟨h1, (h3 "Alpha" (by decide)).1, (h3 "Alpha" (by decide)).2⟩

theorem dget_map_update (m : List (String × String)) (k v j : String) :
    dget (m.map (fun p => if p.1 = k then (k, v) else p)) j =
      (dget m j).map (fun w => if j = k then v else w) := by
  unfold dget
  rw [List.find?_map]
  have hpred : ((fun p : String × String => decide (p.1 = j)) ∘
      (fun p : String × String => if p.1 = k then (k, v) else p)) =
      (fun p : String × String => decide (p.1 = j)) := by
    funext p
    by_cases hp : p.1 = k <;> simp [hp]
  rw [hpred]
  cases hfind : m.find? (fun p => p.1 = j) with
  | none => simp
  | some q =>
      have hq : q.1 = j := by simpa using List.find?_some hfind
      by_cases hjk : j = k <;> simp [hq, hjk]

theorem dget_any_isSome (m : List (String × String)) (k : String)
    (h : m.any (fun p => p.1 = k)) : (dget m k).isSome := by
  unfold dget
  obtain ⟨p, hp, hpk⟩ := List.any_eq_true.mp h
  have : m.find? (fun p => p.1 = k) ≠ none := by
    rw [Ne, List.find?_eq_none]
    intro hall
    exact hall p hp hpk
  cases hfind : m.find? (fun p => p.1 = k)
  · exact absurd hfind this
  · simp

theorem dget_dinsert (m : List (String × String)) (k v j : String) :
    dget (dinsert m k v) j = if j = k then some v else dget m j := by
  unfold dinsert
  split
  · rename_i hany
    rw [dget_map_update]
    by_cases hjk : j = k
    · subst hjk
      obtain ⟨w, hw⟩ := Option.isSome_iff_exists.mp (dget_any_isSome m j hany)
      rw [hw, if_pos rfl]
      simp
    · rw [if_neg hjk]
      cases dget m j <;> simp [hjk]
  · rename_i hany
    unfold dget
    rw [List.find?_append]
    have hsingle : [(k, v)].find? (fun p => p.1 = j) =
        if j = k then some (k, v) else none := by
      by_cases hjk : j = k
      · subst hjk
        simp
      · rw [if_neg hjk]
        exact List.find?_cons_of_neg _ (by simpa using fun h => hjk h.symm)
    rw [hsingle]
    by_cases hjk : j = k
    · subst hjk
      have hnone : m.find? (fun p => p.1 = j) = none := by
        rw [List.find?_eq_none]
        intro p hp hpj
        exact hany (List.any_eq_true.mpr ⟨p, hp, hpj⟩)
      rw [hnone, if_pos rfl, if_pos rfl]
      simp
    · rw [if_neg hjk, if_neg hjk]
      cases m.find? (fun p => p.1 = j) <;> simp

theorem dget_foldl_tms_miss (rows : List Candidate)
    (m : List (String × String)) (k : String)
    (h : ∀ r ∈ rows, ¬ (r.ticker ≠ "" ∧ pyUpper r.ticker = k)) :
    dget (rows.foldl tickerMapStep m) k = dget m k := by
  induction rows generalizing m with
  | nil => rfl
  | cons r rows ih =>
      rw [List.foldl_cons, ih _ (fun r' hr' => h r' (List.mem_cons_of_mem _ hr'))]
      unfold tickerMapStep
      split
      · rename_i ht
        rw [dget_dinsert]
        have hne : k ≠ pyUpper r.ticker := by
          intro he
          exact h r (List.mem_cons_self _ _) ⟨ht, he.symm⟩
        rw [if_neg hne]
      · rfl

theorem dget_foldl_tms_hit (rows : List Candidate)
    (m : List (String × String)) (k : String)
    (h : ∃ r ∈ rows, r.ticker ≠ "" ∧ pyUpper r.ticker = k) :
    ∃ r ∈ rows, r.ticker ≠ "" ∧ pyUpper r.ticker = k ∧
      dget (rows.foldl tickerMapStep m) k = some r.isin_number := by
  induction rows generalizing m with
  | nil => obtain ⟨r, hr, -⟩ := h; cases hr
  | cons r rows ih =>
      by_cases hrows : ∃ r' ∈ rows, r'.ticker ≠ "" ∧ pyUpper r'.ticker = k
      · obtain ⟨r', hr', h1, h2, h3⟩ := ih (tickerMapStep m r) hrows
        exact ⟨r', List.mem_cons_of_mem _ hr', h1, h2, h3⟩
      · obtain ⟨r0, hr0, ht0, hk0⟩ := h
        push_neg at hrows
        have hr0head : r0 = r := by
          rcases List.mem_cons.mp hr0 with h' | h'
          · exact h'
          · exact absurd hk0 (hrows r0 h' ht0)
        subst hr0head
        refine ⟨r0, List.mem_cons_self _ _, ht0, hk0, ?_⟩
        rw [List.foldl_cons]
        have hmiss : ∀ r' ∈ rows, ¬ (r'.ticker ≠ "" ∧ pyUpper r'.ticker = k) := by
          rintro r' hr' ⟨ha, hb⟩
          exact (hrows r' hr' ha) hb
        rw [dget_foldl_tms_miss rows _ k hmiss]
        unfold tickerMapStep
        rw [if_pos ht0, dget_dinsert, if_pos hk0.symm]

theorem dget_foldl_tms_source (rows : List Candidate)
    (m : List (String × String)) (k v : String)
    (h : dget (rows.foldl tickerMapStep m) k = some v) :
    dget m k = some v ∨
      ∃ r ∈ rows, r.ticker ≠ "" ∧ pyUpper r.ticker = k ∧ r.isin_number = v := by
  induction rows generalizing m with
  | nil => exact Or.inl h
  | cons r rows ih =>
      rw [List.foldl_cons] at h
      rcases ih (tickerMapStep m r) h with h1 | h1
      · unfold tickerMapStep at h1
        split at h1
        · rename_i ht
          rw [dget_dinsert] at h1
          by_cases hk : k = pyUpper r.ticker
          · rw [if_pos hk] at h1
            exact Or.inr ⟨r, List.mem_cons_self _ _, ht, hk.symm,
              Option.some.inj h1⟩
          · rw [if_neg hk] at h1
            exact Or.inl h1
        · exact Or.inl h1
      · obtain ⟨r', hr', h2⟩ := h1
        exact Or.inr ⟨r', List.mem_cons_of_mem _ hr', h2⟩

theorem loadYf_mem_spec (mapping : List (String × String)) :
    ∀ (rows : List YfIdentityRow) (seen : List (String × String))
      (c : Candidate), c ∈ loadYfAux mapping rows seen →
      dget mapping c.ticker = some c.isin_number ∧
      c.source = "Yahoo Finance" ∧ c.source_priority = 2 ∧
      c.name ≠ "" ∧ c.ticker_type = "Unknown" ∧ c.ticker ≠ "" := by
  intro rows
  induction rows with
  | nil =>
      intro seen c hc
      cases hc
  | cons r rows ih =>
      intro seen c hc
      unfold loadYfAux at hc
      split at hc
      · exact ih seen c hc
      · rename_i hte
        split at hc
        · exact ih _ c hc
        · rename_i i hmap
          split at hc
          · exact ih _ c hc
          · rcases List.mem_cons.mp hc with rfl | hc'
            · refine ⟨hmap, rfl, rfl, ?_, rfl, hte⟩
              show (norm_text_isin r.name).getD
                (pyUpper ((norm_text_isin r.ticker).getD "")) ≠ ""
              cases hn : norm_text_isin r.name
              · simpa using hte
              · rename_i n
                simpa using norm_text_isin_ne_empty hn
            · exact ih _ c hc'

theorem loadFt_mem_spec :
    ∀ (rows : List FtStaticRow) (seen : List String) (c : Candidate),
      c ∈ loadFtAux rows seen →
      c.name ≠ "" ∧ c.ticker_type ≠ "" ∧ c.source = "Financial Times" ∧
      c.source_priority = 1 ∧ c.isin_number.length = 12 := by
  intro rows
  induction rows with
  | nil =>
      intro seen c hc
      cases hc
  | cons r rows ih =>
      intro seen c hc
      unfold loadFtAux at hc
      split at hc
      · exact ih seen c hc
      · rename_i i hisin
        split at hc
        · exact ih _ c hc
        · rcases List.mem_cons.mp hc with rfl | hc'
          · refine ⟨?_, ?_, rfl, rfl, norm_isin_length hisin⟩
            · show (norm_text_isin r.name).getD
                ((norm_text_isin r.ticker).getD i) ≠ ""
              cases hn : norm_text_isin r.name
              · cases ht : norm_text_isin r.ticker
                · simpa using norm_isin_ne_empty hisin
                · rename_i t
                  simpa using norm_text_isin_ne_empty ht
              · rename_i n
                simpa using norm_text_isin_ne_empty hn
            · show (norm_text_isin r.ticker_type).getD "Unknown" ≠ ""
              cases htt : norm_text_isin r.ticker_type
              · simp
              · rename_i tt
                simpa using norm_text_isin_ne_empty htt
          · exact ih _ c hc'

theorem loadSa_mem_spec :
    ∀ (rows : List SaStaticRow) (seen : List String) (c : Candidate),
      c ∈ loadSaAux rows seen →
      c.name ≠ "" ∧ c.ticker_type ≠ "" ∧ c.source = "Stock Analysis" ∧
      c.source_priority = 3 ∧ c.isin_number.length = 12 := by
  intro rows
  induction rows with
  | nil =>
      intro seen c hc
      cases hc
  | cons r rows ih =>
      intro seen c hc
      unfold loadSaAux at hc
      split at hc
      · exact ih seen c hc
      · rename_i i hisin
        split at hc
        · exact ih _ c hc
        · rcases List.mem_cons.mp hc with rfl | hc'
          · refine ⟨?_, ?_, rfl, rfl, norm_isin_length hisin⟩
            · show (norm_text_isin r.name).getD
                ((norm_text_isin r.ticker).getD i) ≠ ""
              cases hn : norm_text_isin r.name
              · cases ht : norm_text_isin r.ticker
                · simpa using norm_isin_ne_empty hisin
                · rename_i t
                  simpa using norm_text_isin_ne_empty ht
              · rename_i n
                simpa using norm_text_isin_ne_empty hn
            · show (norm_text_isin r.asset_type).getD "Unknown" ≠ ""
              cases htt : norm_text_isin r.asset_type
              · simp
              · rename_i tt
                simpa using norm_text_isin_ne_empty htt
          · exact ih _ c hc'

/-- C5: in the ticker-to-ISIN lookup, an FT entry overrides whatever was
mapped for the same uppercased ticker (the final binding comes from an FT
row whenever any FT row maps that ticker); every loaded YF candidate's
ticker resolves in the lookup to its ISIN, and that ISIN is the ISIN of
some FT or SA candidate — YF never contributes a new ISIN. -/
theorem yf_mapping_spec (ft_rows sa_rows : List Candidate)
    (yf_rows : List YfIdentityRow) :
    (∀ k, (∃ f ∈ ft_rows, f.ticker ≠ "" ∧ pyUpper f.ticker = k) →
      ∃ f ∈ ft_rows, f.ticker ≠ "" ∧ pyUpper f.ticker = k ∧
        dget (build_ticker_to_isin_map ft_rows sa_rows) k =
          some f.isin_number) ∧
    (∀ c ∈ load_yf_candidates yf_rows (build_ticker_to_isin_map ft_rows sa_rows),
      dget (build_ticker_to_isin_map ft_rows sa_rows) c.ticker =
        some c.isin_number ∧
      ∃ r, (r ∈ ft_rows ∨ r ∈ sa_rows) ∧ r.isin_number = c.isin_number) := by
  constructor
  · intro k hk
    exact dget_foldl_tms_hit ft_rows _ k hk
  · intro c hc
    have h1 := (loadYf_mem_spec _ yf_rows [] c hc).1
    refine ⟨h1, ?_⟩
    rcases dget_foldl_tms_source ft_rows _ c.ticker c.isin_number h1 with h2 | h2
    · rcases dget_foldl_tms_source sa_rows [] c.ticker c.isin_number h2 with h3 | h3
      · exact absurd h3 (by simp [dget])
      · obtain ⟨r, hr, -, -, hv⟩ := h3
        exact ⟨r, Or.inr hr, hv⟩
    · obtain ⟨r, hr, -, -, hv⟩ := h2
      exact ⟨r, Or.inl hr, hv⟩

/-- Witness for C5: with FT and SA candidates both carrying ticker ABC, the
final binding for ABC is the FT candidate's ISIN. -/
theorem yf_mapping_spec_witness :
    dget (build_ticker_to_isin_map [candFT] [candSA]) "ABC" =
      some candFT.isin_number := by
  obtain ⟨f, hf, -, -, hd⟩ := (yf_mapping_spec [candFT] [candSA] []).1 "ABC"
    ⟨candFT, List.mem_cons_self _ _, by decide, by decide⟩
  rcases List.mem_cons.mp hf with rfl | hf'
  · exact hd
  · cases hf'

/-- C10: every candidate produced by the three loaders has a non-empty name
(falling back to the normalized ticker and ultimately the ISIN or uppercased
ticker) and a non-empty ticker_type (defaulting to "Unknown"); hence every
merged row upserted into the canonical ISIN table has both. -/
theorem loader_candidates_nonempty (ftR : List FtStaticRow)
    (saR : List SaStaticRow) (yfR : List YfIdentityRow) :
    (∀ c ∈ load_ft_candidates ftR, c.name ≠ "" ∧ c.ticker_type ≠ "") ∧
    (∀ c ∈ load_sa_candidates saR, c.name ≠ "" ∧ c.ticker_type ≠ "") ∧
    (∀ c ∈ load_yf_candidates yfR
        (build_ticker_to_isin_map (load_ft_candidates ftR)
          (load_sa_candidates saR)),
      c.name ≠ "" ∧ c.ticker_type = "Unknown") ∧
    (∀ k c, (k, c) ∈ merge_by_priority
        (load_ft_candidates ftR ++
          load_yf_candidates yfR
            (build_ticker_to_isin_map (load_ft_candidates ftR)
              (load_sa_candidates saR)) ++
          load_sa_candidates saR) →
      c.name ≠ "" ∧ c.ticker_type ≠ "") := by
  refine ⟨?_, ?_, ?_, ?_⟩
  · intro c hc
    have h := loadFt_mem_spec ftR [] c hc
    exact ⟨h.1, h.2.1⟩
  · intro c hc
    have h := loadSa_mem_spec saR [] c hc
    exact ⟨h.1, h.2.1⟩
  · intro c hc
    have h := loadYf_mem_spec _ yfR [] c hc
    exact ⟨h.2.2.2.1, h.2.2.2.2.1⟩
  · intro k c hkc
    have hmem := (merge_entry_spec _ k c hkc).1
    rcases List.mem_append.mp hmem with h | h
    · rcases List.mem_append.mp h with h' | h'
      · have hh := loadFt_mem_spec ftR [] c h'
        exact ⟨hh.1, hh.2.1⟩
      · have hh := loadYf_mem_spec _ yfR [] c h'
        refine ⟨hh.2.2.2.1, ?_⟩
        rw [hh.2.2.2.2.1]
        decide
    · have hh := loadSa_mem_spec saR [] c h
      exact ⟨hh.1, hh.2.1⟩

/-- An FT staging row whose name is the placeholder dash and whose type is
empty, used in the C10 witness. -/
def ftRowDash : FtStaticRow :=
  { isin_number := some "US1234567890", ticker := some " abc ",
    name := some "--", ticker_type := some "", url := none,
    ft_ticker := none }

/-- The candidate the FT loader produces from ftRowDash: name falls back to
the normalized ticker, ticker_type to "Unknown". -/
def candFtDash : Candidate :=
  { isin_number := "US1234567890", ticker := "abc", name := "abc",
    ticker_type := "Unknown", source := "Financial Times",
    source_priority := 1, canonical_url := none, ft_ticker := none,
    mapped_from := none }

/-- Witness for C10: the FT row with placeholder name yields a candidate
with non-empty name and ticker_type. -/
theorem loader_candidates_nonempty_witness :
    candFtDash.name ≠ "" ∧ candFtDash.ticker_type ≠ "" :=
  (loader_candidates_nonempty [ftRowDash] [] []).1 candFtDash (by decide)

/-- SOURCE_PRIORITY from merge_security_master_status.py line 14: note the
list order is Financial Times, Stock Analysis, Yahoo Finance. -/
def SOURCE_PRIORITY : List String :=
  ["Financial Times", "Stock Analysis", "Yahoo Finance"]

/-- `_source_rank` (lines 36-40): index in SOURCE_PRIORITY, 999 when the
source is absent (ValueError branch). -/
def source_rank (s : String) : Nat :=
  match SOURCE_PRIORITY.indexOf? s with
  | some i => i
  | none => 999

instance : IsTrans String (fun a b => source_rank a ≤ source_rank b) :=
  ⟨fun _ _ _ h1 h2 => le_trans h1 h2⟩

instance : IsTotal String (fun a b => source_rank a ≤ source_rank b) :=
  ⟨fun a b => Nat.le_total (source_rank a) (source_rank b)⟩

instance : IsTrans (String × Option String)
    (fun p q => source_rank p.1 ≤ source_rank q.1) :=
  ⟨fun _ _ _ h1 h2 => le_trans h1 h2⟩

instance : IsTotal (String × Option String)
    (fun p q => source_rank p.1 ≤ source_rank q.1) :=
  ⟨fun p q => Nat.le_total (source_rank p.1) (source_rank q.1)⟩

/-- `_pick_field` (lines 43-50): stable-sort the (source, value) pairs by
source rank (Python's sorted is stable, as is insertion sort), then return
the first value that normalizes to a non-placeholder. -/
def pick_field (candidates : List (String × Option String)) : Option String :=
  (List.insertionSort (fun p q => source_rank p.1 ≤ source_rank q.1)
    candidates).findSome? (fun p => norm_text_status p.2)

/-- One row of a source's latest master-ticker snapshot
(load_latest_source_rows shape: source, ticker, name, ticker_type, url). -/
structure SourceRow where
  source : String
  ticker : Option String
  name : Option String
  ticker_type : Option String
  url : Option String
deriving Repr, DecidableEq

/-- The grouping key `(ticker or "").strip().upper()` from build_snapshot. -/
def rowKey (r : SourceRow) : String := pyUpper (pyStrip (r.ticker.getD ""))

/-- First-occurrence deduplication, modelling Python dict key insertion
order (defaultdict grouping). -/
def firstDedupS : List String → List String
  | [] => []
  | x :: l => x :: (firstDedupS l).filter (fun y => y ≠ x)

/-- The distinct non-empty grouping keys of build_snapshot, in first
appearance order. -/
def snapKeys (rows : List SourceRow) : List String :=
  firstDedupS ((rows.map rowKey).filter (fun t => t ≠ ""))

/-- The distinct sources listing ticker t, in first-appearance order (the
Python set's contents; iteration order of a set is unspecified, but the
rank sort below makes preferred/coverage independent of it for the three
known sources, whose ranks are distinct). -/
def sourcesOf (rows : List SourceRow) (t : String) : List String :=
  firstDedupS ((rows.filter (fun r => rowKey r = t)).map (fun r => r.source))

/-- SecuritySnapshot dataclass (lines 18-26); last_seen is an Int day
number (as_of). -/
structure SecuritySnapshot where
  ticker : String
  name : Option String
  ticker_type : Option String
  preferred_source : String
  source_coverage : String
  canonical_url : Option String
  last_seen : Int
deriving Repr, DecidableEq

/-- The snapshot built for one ticker group (lines 130-148). -/
def buildSnapshotRow (rows : List SourceRow) (asOf : Int) (t : String) :
    SecuritySnapshot :=
  { ticker := t,
    name := pick_field ((rows.filter (fun r => rowKey r = t)).map
      (fun r => (r.source, r.name))),
    ticker_type := pick_field ((rows.filter (fun r => rowKey r = t)).map
      (fun r => (r.source, r.ticker_type))),
    preferred_source :=
      (List.insertionSort (fun a b => source_rank a ≤ source_rank b)
        (sourcesOf rows t)).headD "",
    source_coverage := String.intercalate ","
      (List.insertionSort (fun a b => source_rank a ≤ source_rank b)
        (sourcesOf rows t)),
    canonical_url := pick_field ((rows.filter (fun r => rowKey r = t)).map
      (fun r => (r.source, r.url))),
    last_seen := asOf }

/-- build_snapshot (lines 117-150). -/
def build_snapshot (rows : List SourceRow) (asOf : Int) :
    List SecuritySnapshot :=
  (snapKeys rows).map (buildSnapshotRow rows asOf)

/-- Status constants from src/utils/status_manager.py. -/
def STATUS_NEW : String := "new"

def STATUS_ACTIVE : String := "active"

def STATUS_INACTIVE : String := "inactive"

/-- A stg_security_master row; dates are Int day numbers. -/
structure RegRow where
  ticker : String
  name : Option String
  ticker_type : Option String
  preferred_source : String
  source_coverage : String
  canonical_url : Option String
  status : String
  first_seen : Int
  last_seen : Int
deriving Repr, DecidableEq

/-- The column list ON DUPLICATE KEY UPDATE overwrites (lines 185-192):
status and first_seen are not among them, and the key column ticker is
kept. -/
def applySnapshotUpdate (r : RegRow) (s : SecuritySnapshot) : RegRow :=
  { r with
    name := s.name
    ticker_type := s.ticker_type
    preferred_source := s.preferred_source
    source_coverage := s.source_coverage
    canonical_url := s.canonical_url
    last_seen := s.last_seen }

/-- The fresh row the INSERT creates (VALUES tuple, lines 194-207): status
"new", first_seen = today. -/
def insertSnapshotRow (s : SecuritySnapshot) (today : Int) : RegRow :=
  { ticker := s.ticker, name := s.name, ticker_type := s.ticker_type,
    preferred_source := s.preferred_source,
    source_coverage := s.source_coverage,
    canonical_url := s.canonical_url, status := STATUS_NEW,
    first_seen := today, last_seen := s.last_seen }

/-- Upsert of one snapshot into the registry (unique key = ticker). -/
def upsertRow (reg : List RegRow) (s : SecuritySnapshot) (today : Int) :
    List RegRow :=
  if reg.any (fun r => r.ticker = s.ticker) then
    reg.map (fun r =>
      if r.ticker = s.ticker then applySnapshotUpdate r s else r)
  else reg ++ [insertSnapshotRow s today]

/-- The SQL guard `name IS NOT NULL AND name <> ''`. -/
def nameNonEmpty (r : RegRow) : Bool :=
  match r.name with
  | some n => n ≠ ""
  | none => false

/-- Transition 1 (lines 211-220) applied to one row: new -> active when
ticker and name are non-empty. -/
def promoteFn (r : RegRow) : RegRow :=
  if r.status = STATUS_NEW ∧ r.ticker ≠ "" ∧ nameNonEmpty r then
    { r with status := STATUS_ACTIVE }
  else r

/-- Transition 2 (lines 223-231) applied to one row: active -> inactive
when last_seen < cutoff. -/
def expireFn (cutoff : Int) (r : RegRow) : RegRow :=
  if r.status = STATUS_ACTIVE ∧ r.last_seen < cutoff then
    { r with status := STATUS_INACTIVE }
  else r

/-- Transition 3 (lines 234-242) applied to one row: inactive -> active
when last_seen >= today. -/
def reviveFn (today : Int) (r : RegRow) : RegRow :=
  if r.status = STATUS_INACTIVE ∧ today ≤ r.last_seen then
    { r with status := STATUS_ACTIVE }
  else r

/-- merge_security_master (lines 153-259): build today's snapshot, upsert
it, then run the three guarded UPDATE statements in order; the cutoff is
today - inactive_days. -/
def merge_security_master (reg : List RegRow) (rows : List SourceRow)
    (today : Int) (inactive_days : Nat) : List RegRow :=
  (((build_snapshot rows today).foldl
      (fun rg s => upsertRow rg s today) reg).map promoteFn).map
    (expireFn (today - (inactive_days : Int))) |>.map (reviveFn today)

/-- Registry lookup by unique ticker key. -/
def regFind (reg : List RegRow) (t : String) : Option RegRow :=
  reg.find? (fun r => r.ticker = t)

theorem regFind_map (reg : List RegRow) (f : RegRow → RegRow)
    (hf : ∀ r, (f r).ticker = r.ticker) (t : String) :
    regFind (reg.map f) t = (regFind reg t).map f := by
  unfold regFind
  rw [List.find?_map]
  have hp : ((fun r : RegRow => decide (r.ticker = t)) ∘ f) =
      (fun r : RegRow => decide (r.ticker = t)) := by
    funext r
    simp [Function.comp, hf r]
  rw [hp]

theorem regFind_isSome_of_any (reg : List RegRow) (t : String)
    (h : reg.any (fun r => r.ticker = t)) : (regFind reg t).isSome := by
  unfold regFind
  obtain ⟨x, hx, hxt⟩ := List.any_eq_true.mp h
  have hne : reg.find? (fun r => r.ticker = t) ≠ none := by
    rw [Ne, List.find?_eq_none]
    intro hall
    exact hall x hx hxt
  cases hfind : reg.find? (fun r => r.ticker = t)
  · exact absurd hfind hne
  · simp

theorem regFind_upsertRow (reg : List RegRow) (s : SecuritySnapshot)
    (today : Int) (t : String) :
    regFind (upsertRow reg s today) t =
      if t = s.ticker then
        some (match regFind reg t with
          | some r => applySnapshotUpdate r s
          | none => insertSnapshotRow s today)
      else regFind reg t := by
  unfold upsertRow
  split
  · rename_i hany
    have hf : ∀ r : RegRow,
        ((fun r => if r.ticker = s.ticker then applySnapshotUpdate r s else r)
          r).ticker = r.ticker := by
      intro r
      by_cases hr : r.ticker = s.ticker <;> simp [hr, applySnapshotUpdate]
    rw [regFind_map _ _ hf]
    by_cases ht : t = s.ticker
    · subst ht
      rw [if_pos rfl]
      obtain ⟨r0, hr0⟩ := Option.isSome_iff_exists.mp
        (regFind_isSome_of_any reg s.ticker hany)
      rw [hr0]
      have hr0t : r0.ticker = s.ticker := by
        simpa using List.find?_some hr0
      simp [hr0t]
    · rw [if_neg ht]
      cases hfind : regFind reg t with
      | none => rfl
      | some r0 =>
          have hr0t : r0.ticker = t := by
            simpa using List.find?_some hfind
          have : r0.ticker ≠ s.ticker := by
            rw [hr0t]
            exact ht
          simp [this]
  · rename_i hany
    have hnone : reg.find? (fun r => r.ticker = s.ticker) = none := by
      rw [List.find?_eq_none]
      intro x hx hxt
      exact hany (List.any_eq_true.mpr ⟨x, hx, hxt⟩)
    by_cases ht : t = s.ticker
    · subst ht
      rw [if_pos rfl]
      show (reg ++ [insertSnapshotRow s today]).find? _ = _
      rw [List.find?_append, hnone]
      have hsingle : [insertSnapshotRow s today].find?
          (fun r => r.ticker = s.ticker) = some (insertSnapshotRow s today) :=
        List.find?_cons_of_pos _ (by simp [insertSnapshotRow])
      rw [hsingle]
      have : regFind reg s.ticker = none := hnone
      rw [this]
      rfl
    · rw [if_neg ht]
      show (reg ++ [insertSnapshotRow s today]).find? _ = _
      rw [List.find?_append]
      have hne2 : ¬ ((insertSnapshotRow s today).ticker = t) := by
        show ¬ (s.ticker = t)
        exact fun h => ht h.symm
      have hsingle : [insertSnapshotRow s today].find?
          (fun r => r.ticker = t) = none :=
        List.find?_cons_of_neg _ (by simpa using hne2)
      rw [hsingle]
      unfold regFind
      cases List.find? (fun r => decide (r.ticker = t)) reg <;> rfl

theorem upd_upd (r : RegRow) (s1 s2 : SecuritySnapshot) :
    applySnapshotUpdate (applySnapshotUpdate r s1) s2 =
      applySnapshotUpdate r s2 := rfl

theorem upd_insert (s1 s2 : SecuritySnapshot) (today : Int)
    (h : s1.ticker = s2.ticker) :
    applySnapshotUpdate (insertSnapshotRow s1 today) s2 =
      insertSnapshotRow s2 today := by
  simp [applySnapshotUpdate, insertSnapshotRow, h]

theorem snap_getLast?_mem {l : List SecuritySnapshot} {a : SecuritySnapshot}
    (h : l.getLast? = some a) : a ∈ l := by
  obtain ⟨hne, ha⟩ :=
    List.mem_getLast?_eq_getLast (Option.mem_def.mpr h)
  rw [ha]
  exact List.getLast_mem hne

theorem regFind_foldl_upsert (snaps : List SecuritySnapshot)
    (reg : List RegRow) (today : Int) (t : String) :
    regFind (snaps.foldl (fun rg s => upsertRow rg s today) reg) t =
      match (snaps.filter (fun s => s.ticker = t)).getLast? with
      | none => regFind reg t
      | some s => some (match regFind reg t with
          | some r => applySnapshotUpdate r s
          | none => insertSnapshotRow s today) := by
  induction snaps generalizing reg with
  | nil => rfl
  | cons s snaps ih =>
      rw [List.foldl_cons, ih]
      by_cases hs : s.ticker = t
      · rw [List.filter_cons_of_pos (by simpa using hs)]
        rw [regFind_upsertRow, if_pos hs.symm]
        cases hlast : (snaps.filter (fun s' => s'.ticker = t)).getLast? with
        | none =>
            have hnil : snaps.filter (fun s' => s'.ticker = t) = [] := by
              cases hfil : snaps.filter (fun s' => s'.ticker = t) with
              | nil => rfl
              | cons b l' =>
                  rw [hfil] at hlast
                  have := List.getLast?_isSome (l := b :: l')
                  rw [hlast] at this
                  simp at this
            rw [hnil]
            rfl
        | some s' =>
            have hs' : s'.ticker = t := by
              have hmem := snap_getLast?_mem hlast
              simpa using (List.mem_filter.mp hmem).2
            cases hfil : snaps.filter (fun s' => s'.ticker = t) with
            | nil =>
                rw [hfil] at hlast
                exact absurd hlast (by simp)
            | cons b l' =>
                rw [hfil] at hlast
                rw [List.getLast?_cons_cons]
                rw [← hfil] at hlast ⊢
                rw [hlast]
                cases hreg : regFind reg t with
                | none =>
                    simp only
                    rw [upd_insert s s' today (by rw [hs, hs'])]
                | some r0 =>
                    simp only
                    rw [upd_upd]
      · rw [List.filter_cons_of_neg (by simpa using hs)]
        rw [regFind_upsertRow, if_neg (fun h => hs h.symm)]

theorem regFind_self {reg : List RegRow} {r : RegRow}
    (hnd : (reg.map RegRow.ticker).Nodup) (hr : r ∈ reg) :
    regFind reg r.ticker = some r := by
  induction reg with
  | nil => cases hr
  | cons q reg ih =>
      rcases List.mem_cons.mp hr with rfl | hr'
      · unfold regFind
        exact List.find?_cons_of_pos _ (by simp)
      · have hq : q.ticker ≠ r.ticker := by
          intro he
          have : r.ticker ∈ reg.map RegRow.ticker :=
            List.mem_map_of_mem RegRow.ticker hr'
          rw [← he] at this
          exact (List.nodup_cons.mp hnd).1 this
        unfold regFind
        rw [List.find?_cons_of_neg _ (by simpa using hq)]
        exact ih (List.nodup_cons.mp hnd).2 hr'

theorem promoteFn_ticker (r : RegRow) : (promoteFn r).ticker = r.ticker := by
  unfold promoteFn
  split <;> rfl

theorem expireFn_ticker (cutoff : Int) (r : RegRow) :
    (expireFn cutoff r).ticker = r.ticker := by
  unfold expireFn
  split <;> rfl

theorem reviveFn_ticker (today : Int) (r : RegRow) :
    (reviveFn today r).ticker = r.ticker := by
  unfold reviveFn
  split <;> rfl

theorem regFind_transitions (reg : List RegRow) (today cutoff : Int)
    (t : String) :
    regFind (((reg.map promoteFn).map (expireFn cutoff)).map (reviveFn today))
      t =
      (regFind reg t).map
        (fun r => reviveFn today (expireFn cutoff (promoteFn r))) := by
  rw [regFind_map _ _ (reviveFn_ticker today),
    regFind_map _ _ (expireFn_ticker cutoff),
    regFind_map _ _ promoteFn_ticker]
  cases regFind reg t <;> rfl

theorem transitions_status_ne_new (today cutoff : Int) (r : RegRow)
    (h : r.status ≠ STATUS_NEW) :
    (reviveFn today (expireFn cutoff (promoteFn r))).status ≠ STATUS_NEW := by
  unfold promoteFn
  rw [if_neg (fun hc => h hc.1)]
  unfold expireFn
  split
  · unfold reviveFn
    split
    · intro he
      have h2 : STATUS_ACTIVE = STATUS_NEW := he
      exact absurd h2 (by decide)
    · intro he
      have h2 : STATUS_INACTIVE = STATUS_NEW := he
      exact absurd h2 (by decide)
  · unfold reviveFn
    split
    · intro he
      have h2 : STATUS_ACTIVE = STATUS_NEW := he
      exact absurd h2 (by decide)
    · exact h

theorem inactive_today_revives (today cutoff : Int) (r : RegRow)
    (hst : r.status = STATUS_INACTIVE) (hls : today ≤ r.last_seen) :
    (reviveFn today (expireFn cutoff (promoteFn r))).status = STATUS_ACTIVE := by
  unfold promoteFn
  rw [if_neg (fun hc => by
    rw [hst] at hc
    exact absurd hc.1 (by decide))]
  unfold expireFn
  rw [if_neg (fun hc => by
    rw [hst] at hc
    exact absurd hc.1 (by decide))]
  unfold reviveFn
  rw [if_pos ⟨hst, hls⟩]

theorem build_snapshot_last_seen (rows : List SourceRow) (asOf : Int) :
    ∀ s ∈ build_snapshot rows asOf, s.last_seen = asOf := by
  intro s hs
  obtain ⟨t, -, rfl⟩ := List.mem_map.mp hs
  rfl

/-- C4: the run applies the three guarded transitions, in order, to the
registry as it stands after the snapshot upsert (first conjunct); since the
upsert sets last_seen = today for every snapshotted ticker and never touches
status, an inactive row whose ticker appears in today's snapshot ends the
run active (second conjunct), and an active row never ends the run as new
(third conjunct). -/
theorem merge_security_master_lifecycle (reg : List RegRow)
    (rows : List SourceRow) (today : Int) (d : Nat) (r : RegRow)
    (hwf : (reg.map RegRow.ticker).Nodup) (hr : r ∈ reg) :
    (∀ r'',
      regFind ((build_snapshot rows today).foldl
        (fun rg s => upsertRow rg s today) reg) r.ticker = some r'' →
      regFind (merge_security_master reg rows today d) r.ticker =
        some (reviveFn today
          (expireFn (today - (d : Int)) (promoteFn r'')))) ∧
    (r.status = STATUS_INACTIVE →
      (∃ s ∈ build_snapshot rows today, s.ticker = r.ticker) →
      ∃ r', regFind (merge_security_master reg rows today d) r.ticker =
        some r' ∧ r'.status = STATUS_ACTIVE) ∧
    (r.status = STATUS_ACTIVE →
      ∃ r', regFind (merge_security_master reg rows today d) r.ticker =
        some r' ∧ r'.status ≠ STATUS_NEW) := by
  have hreg : regFind reg r.ticker = some r := regFind_self hwf hr
  have hchain : ∀ r'',
      regFind ((build_snapshot rows today).foldl
        (fun rg s => upsertRow rg s today) reg) r.ticker = some r'' →
      regFind (merge_security_master reg rows today d) r.ticker =
        some (reviveFn today (expireFn (today - (d : Int)) (promoteFn r''))) := by
    intro r'' h
    show regFind (((((build_snapshot rows today).foldl
        (fun rg s => upsertRow rg s today) reg).map promoteFn).map
          (expireFn (today - (d : Int)))).map (reviveFn today)) r.ticker = _
    rw [regFind_transitions, h]
    rfl
  refine ⟨hchain, ?_, ?_⟩
  · intro hst hmem
    obtain ⟨s0, hs0, hs0t⟩ := hmem
    have hfil : s0 ∈ (build_snapshot rows today).filter
        (fun s => s.ticker = r.ticker) :=
      List.mem_filter.mpr ⟨hs0, by simpa using hs0t⟩
    cases hlast : ((build_snapshot rows today).filter
        (fun s => s.ticker = r.ticker)).getLast? with
    | none =>
        have := List.getLast?_isSome
          (l := (build_snapshot rows today).filter
            (fun s => s.ticker = r.ticker))
        rw [hlast] at this
        simp [List.ne_nil_of_mem hfil] at this
    | some sl =>
        have hslmem := snap_getLast?_mem hlast
        have hsl_snap : sl ∈ build_snapshot rows today :=
          (List.mem_filter.mp hslmem).1
        have hsl_today : sl.last_seen = today :=
          build_snapshot_last_seen rows today sl hsl_snap
        have hup : regFind ((build_snapshot rows today).foldl
            (fun rg s => upsertRow rg s today) reg) r.ticker =
            some (applySnapshotUpdate r sl) := by
          rw [regFind_foldl_upsert, hlast, hreg]
        refine ⟨reviveFn today (expireFn (today - (d : Int))
          (promoteFn (applySnapshotUpdate r sl))),
          hchain _ hup, ?_⟩
        apply inactive_today_revives
        · exact hst
        · show today ≤ sl.last_seen
          rw [hsl_today]
  · intro hst
    cases hlast : ((build_snapshot rows today).filter
        (fun s => s.ticker = r.ticker)).getLast? with
    | none =>
        have hup : regFind ((build_snapshot rows today).foldl
            (fun rg s => upsertRow rg s today) reg) r.ticker = some r := by
          rw [regFind_foldl_upsert, hlast]
          exact hreg
        refine ⟨_, hchain _ hup, ?_⟩
        apply transitions_status_ne_new
        rw [hst]
        decide
    | some sl =>
        have hup : regFind ((build_snapshot rows today).foldl
            (fun rg s => upsertRow rg s today) reg) r.ticker =
            some (applySnapshotUpdate r sl) := by
          rw [regFind_foldl_upsert, hlast, hreg]
        refine ⟨_, hchain _ hup, ?_⟩
        apply transitions_status_ne_new
        show r.status ≠ STATUS_NEW
        rw [hst]
        decide

/-- Concrete FT master-ticker source row for witnesses. -/
def srcRowABC : SourceRow :=
  { source := "Financial Times", ticker := some "abc",
    name := some "Alpha Fund", ticker_type := some "ETF", url := none }

/-- Concrete inactive registry row for witnesses (last seen on day 90). -/
def rowABCinactive : RegRow :=
  { ticker := "ABC", name := some "Alpha Fund", ticker_type := some "ETF",
    preferred_source := "Financial Times",
    source_coverage := "Financial Times", canonical_url := none,
    status := "inactive", first_seen := 50, last_seen := 90 }

/-- Witness for C4 at the spec's scenario 9: the inactive row for ABC, seen
again in today's (day 100) snapshot, ends the run active. -/
theorem merge_security_master_lifecycle_witness :
    ∃ r', regFind (merge_security_master [rowABCinactive] [srcRowABC] 100 7)
      rowABCinactive.ticker = some r' ∧ r'.status = STATUS_ACTIVE :=
  (merge_security_master_lifecycle [rowABCinactive] [srcRowABC] 100 7
    rowABCinactive (by decide) (by decide)).2.1 (by decide) (by decide)

/-- C6: when the snapshot upsert hits an existing registry row (same
ticker), it overwrites name, ticker_type, preferred_source,
source_coverage, canonical_url and last_seen but keeps the row's status and
first_seen (they are taken from the old row), and rows with other tickers
are untouched. -/
theorem upsert_frame (reg : List RegRow) (s : SecuritySnapshot) (today : Int)
    (r : RegRow) (h : regFind reg s.ticker = some r) :
    regFind (upsertRow reg s today) s.ticker =
      some { r with
        name := s.name
        ticker_type := s.ticker_type
        preferred_source := s.preferred_source
        source_coverage := s.source_coverage
        canonical_url := s.canonical_url
        last_seen := s.last_seen } ∧
    (∀ t, t ≠ s.ticker → regFind (upsertRow reg s today) t = regFind reg t) := by
  constructor
  · rw [regFind_upsertRow, if_pos rfl, h]
    rfl
  · intro t ht
    rw [regFind_upsertRow, if_neg ht]

/-- Concrete snapshot row for the C6 witness: ticker ABC seen today with
fresh field values. -/
def snapABC : SecuritySnapshot :=
  { ticker := "ABC", name := some "Alpha Fund Renamed",
    ticker_type := some "Fund", preferred_source := "Stock Analysis",
    source_coverage := "Stock Analysis", canonical_url := some "u",
    last_seen := 100 }

/-- Witness for C6: upserting snapABC over the inactive ABC row keeps
status "inactive" and first_seen 50 while refreshing the other fields. -/
theorem upsert_frame_witness :
    regFind (upsertRow [rowABCinactive] snapABC 100) snapABC.ticker =
      some { rowABCinactive with
        name := snapABC.name
        ticker_type := snapABC.ticker_type
        preferred_source := snapABC.preferred_source
        source_coverage := snapABC.source_coverage
        canonical_url := snapABC.canonical_url
        last_seen := snapABC.last_seen } :=
  (upsert_frame [rowABCinactive] snapABC 100 rowABCinactive (by decide)).1

/-- Concrete YF master-ticker source row. -/
def srcYfABC : SourceRow :=
  { source := "Yahoo Finance", ticker := some "ABC",
    name := some "Alpha Fund", ticker_type := none, url := none }

/-- Concrete SA master-ticker source row. -/
def srcSaABC : SourceRow :=
  { source := "Stock Analysis", ticker := some "ABC",
    name := some "Alpha Fund SA", ticker_type := some "ETF", url := none }

/-- C1 counterexample: for a ticker covered by Yahoo Finance and Stock
Analysis only, the lifecycle engine's preferred_source is Stock Analysis
(SOURCE_PRIORITY ranks it second), while the ISIN merge's winner between a
YF and an SA candidate is the YF one (priority 2 < 3) — the two use sites
do not rank sources identically. -/
theorem source_ordering_counterexample :
    (buildSnapshotRow [srcYfABC, srcSaABC] 100 "ABC").preferred_source =
      "Stock Analysis" ∧
    bget (merge_by_priority [candYF, candSA]) "US1234567890" = some candYF ∧
    candYF.source = "Yahoo Finance" ∧ candSA.source = "Stock Analysis" ∧
    source_rank "Stock Analysis" < source_rank "Yahoo Finance" ∧
    candYF.source_priority < candSA.source_priority := by
  decide

theorem insertionSort_head_min (l : List String) (hne : l ≠ []) :
    (List.insertionSort (fun a b => source_rank a ≤ source_rank b) l).headD ""
        ∈ l ∧
    ∀ s ∈ l,
      source_rank ((List.insertionSort
        (fun a b => source_rank a ≤ source_rank b) l).headD "") ≤
        source_rank s := by
  have hperm := List.perm_insertionSort
    (fun a b => source_rank a ≤ source_rank b) l
  have hsort := List.sorted_insertionSort
    (fun a b => source_rank a ≤ source_rank b) l
  cases hsl : List.insertionSort (fun a b => source_rank a ≤ source_rank b) l
    with
  | nil =>
      rw [hsl] at hperm
      exact absurd hperm.symm.eq_nil hne
  | cons c rest =>
      rw [hsl] at hperm hsort
      constructor
      · exact hperm.subset (List.mem_cons_self c rest)
      · intro s hs
        show source_rank ((c :: rest).headD "") ≤ source_rank s
        have hs' : s ∈ c :: rest := (hperm.mem_iff).mpr hs
        rcases List.mem_cons.mp hs' with rfl | hs''
        · exact le_refl _
        · exact (List.sorted_cons.mp hsort).1 s hs''

theorem findSome_sorted_min :
    ∀ (l : List (String × Option String)),
      List.Sorted (fun p q => source_rank p.1 ≤ source_rank q.1) l →
      ∀ v, l.findSome? (fun p => norm_text_status p.2) = some v →
      ∃ p ∈ l, norm_text_status p.2 = some v ∧
        ∀ q ∈ l, norm_text_status q.2 ≠ none →
          source_rank p.1 ≤ source_rank q.1 := by
  intro l
  induction l with
  | nil =>
      intro _ v h
      simp [List.findSome?] at h
  | cons p l ih =>
      intro hsort v h
      rw [List.findSome?_cons] at h
      cases hp : norm_text_status p.2 with
      | some v' =>
          rw [hp] at h
          obtain rfl := Option.some.inj h
          refine ⟨p, List.mem_cons_self _ _, hp, ?_⟩
          intro q hq _
          rcases List.mem_cons.mp hq with rfl | hq'
          · exact le_refl _
          · exact (List.sorted_cons.mp hsort).1 q hq'
      | none =>
          rw [hp] at h
          obtain ⟨p', hp', hv', hmin⟩ := ih (List.sorted_cons.mp hsort).2 v h
          refine ⟨p', List.mem_cons_of_mem _ hp', hv', ?_⟩
          intro q hq hqn
          rcases List.mem_cons.mp hq with rfl | hq'
          · exact absurd hp hqn
          · exact hmin q hq' hqn

/-- C1 amended: the ISIN merge ranks FT=1 < YF=2 < SA=3 (lowest priority
wins), but the lifecycle engine's SOURCE_PRIORITY list orders Financial
Times, Stock Analysis, Yahoo Finance; both lifecycle use sites
(preferred_source and the per-field pick) follow that source_rank order —
minimal rank present wins — so the lifecycle ordering agrees with the merge
on FT-first but ranks Stock Analysis above Yahoo Finance, unlike the merge. -/
theorem source_ordering_amended (ftR : List FtStaticRow)
    (saR : List SaStaticRow) (yfR : List YfIdentityRow)
    (mapping : List (String × String)) (rows : List SourceRow) (asOf : Int)
    (t : String) (cands : List (String × Option String)) :
    (source_rank "Financial Times" < source_rank "Stock Analysis" ∧
      source_rank "Stock Analysis" < source_rank "Yahoo Finance") ∧
    ((∀ c ∈ load_ft_candidates ftR,
        c.source = "Financial Times" ∧ c.source_priority = 1) ∧
      (∀ c ∈ load_yf_candidates yfR mapping,
        c.source = "Yahoo Finance" ∧ c.source_priority = 2) ∧
      (∀ c ∈ load_sa_candidates saR,
        c.source = "Stock Analysis" ∧ c.source_priority = 3)) ∧
    (sourcesOf rows t ≠ [] →
      (buildSnapshotRow rows asOf t).preferred_source ∈ sourcesOf rows t ∧
      ∀ s ∈ sourcesOf rows t,
        source_rank (buildSnapshotRow rows asOf t).preferred_source ≤
          source_rank s) ∧
    (∀ v, pick_field cands = some v →
      ∃ p ∈ cands, norm_text_status p.2 = some v ∧
        ∀ q ∈ cands, norm_text_status q.2 ≠ none →
          source_rank p.1 ≤ source_rank q.1) := by
  refine ⟨by decide, ⟨?_, ?_, ?_⟩, ?_, ?_⟩
  · intro c hc
    have h := loadFt_mem_spec ftR [] c hc
    exact ⟨h.2.2.1, h.2.2.2.1⟩
  · intro c hc
    have h := loadYf_mem_spec mapping yfR [] c hc
    exact ⟨h.2.1, h.2.2.1⟩
  · intro c hc
    have h := loadSa_mem_spec saR [] c hc
    exact ⟨h.2.2.1, h.2.2.2.1⟩
  · intro hne
    exact insertionSort_head_min (sourcesOf rows t) hne
  · intro v h
    have hsort := List.sorted_insertionSort
      (fun p q : String × Option String => source_rank p.1 ≤ source_rank q.1)
      cands
    have hperm := List.perm_insertionSort
      (fun p q : String × Option String => source_rank p.1 ≤ source_rank q.1)
      cands
    obtain ⟨p, hp, hv, hmin⟩ := findSome_sorted_min _ hsort v h
    refine ⟨p, hperm.subset hp, hv, ?_⟩
    intro q hq hqn
    exact hmin q ((hperm.mem_iff).mpr hq) hqn

/-- Witness for C1's amended theorem: for coverage {YF, SA} the lifecycle
preferred source is rank-minimal within the coverage. -/
theorem source_ordering_amended_witness :
    (buildSnapshotRow [srcYfABC, srcSaABC] 100 "ABC").preferred_source ∈
      sourcesOf [srcYfABC, srcSaABC] "ABC" ∧
    ∀ s ∈ sourcesOf [srcYfABC, srcSaABC] "ABC",
      source_rank
        (buildSnapshotRow [srcYfABC, srcSaABC] 100 "ABC").preferred_source ≤
        source_rank s :=
  (source_ordering_amended [] [] [] [] [srcYfABC, srcSaABC] 100 "ABC"
    []).2.2.1 (by decide)

/-- A vw_nav_unified row (fields used by vw_nav_usd); the unified view
uppercases the currency, and vw_nav_usd's CASE expressions apply UPPER
again. -/
structure NavRow where
  source_name : String
  ticker : String
  nav_price : ℚ
  nav_currency : String
  as_of_date : Int
deriving Repr, DecidableEq

/-- A daily_fx_rates row; the table's unique key is
(rate_date, from_currency, to_currency). -/
structure FxRate where
  rate_date : Int
  from_currency : String
  to_currency : String
  fx_rate : ℚ
deriving Repr, DecidableEq

/-- The currency-aliasing CASE in vw_nav_usd: GBX->GBP, ZAX->ZAR, CNH->CNY,
ILA->ILS, otherwise the uppercased code itself. -/
def fx_from_currency (c : String) : String :=
  if pyUpper c = "GBX" then "GBP"
  else if pyUpper c = "ZAX" then "ZAR"
  else if pyUpper c = "CNH" then "CNY"
  else if pyUpper c = "ILA" then "ILS"
  else pyUpper c

/-- The unit-factor CASE: 0.01 for GBX and ZAX, 1 otherwise. -/
def unit_factor (c : String) : ℚ :=
  if pyUpper c = "GBX" then 1 / 100
  else if pyUpper c = "ZAX" then 1 / 100
  else 1

/-- The FX rows eligible for the join: matching from/to currencies and rate
date not after the as-of date. -/
def fxCandidates (fxs : List FxRate) (c : String) (d : Int) : List FxRate :=
  fxs.filter (fun f => f.from_currency = c ∧ f.to_currency = "USD" ∧
    f.rate_date ≤ d)

/-- One step of selecting the latest-dated eligible rate (first one wins a
date tie; ties cannot occur under the table's unique key). -/
def fxStep (acc : Option FxRate) (f : FxRate) : Option FxRate :=
  match acc with
  | none => some f
  | some g => if g.rate_date < f.rate_date then some f else acc

/-- The joined FX row: the eligible row with the maximum rate_date (the
correlated MAX subquery in the LEFT JOIN condition). -/
def fxLookup (fxs : List FxRate) (c : String) (d : Int) : Option FxRate :=
  (fxCandidates fxs c d).foldl fxStep none

/-- One output row of vw_nav_usd. -/
structure UsdRow where
  source_name : String
  ticker : String
  nav_price : ℚ
  nav_currency : String
  as_of_date : Int
  fx_from_currency : String
  unit_factor : ℚ
  fx_rate_date : Option Int
  fx_rate_to_usd : Option ℚ
  nav_price_usd : Option ℚ
  fx_staleness_days : Option Int
deriving Repr, DecidableEq

/-- vw_nav_usd's per-row computation (SELECT list of build_nav_data_mart.py
lines 80-134). -/
def convertRow (fxs : List FxRate) (n : NavRow) : UsdRow :=
  { source_name := n.source_name
    ticker := n.ticker
    nav_price := n.nav_price
    nav_currency := n.nav_currency
    as_of_date := n.as_of_date
    fx_from_currency := fx_from_currency n.nav_currency
    unit_factor := unit_factor n.nav_currency
    fx_rate_date :=
      (fxLookup fxs (fx_from_currency n.nav_currency) n.as_of_date).map
        (fun f => f.rate_date)
    fx_rate_to_usd :=
      (fxLookup fxs (fx_from_currency n.nav_currency) n.as_of_date).map
        (fun f => f.fx_rate)
    nav_price_usd :=
      if fx_from_currency n.nav_currency = "USD" then
        some (n.nav_price * unit_factor n.nav_currency)
      else
        match fxLookup fxs (fx_from_currency n.nav_currency) n.as_of_date with
        | none => none
        | some f => some (n.nav_price * unit_factor n.nav_currency * f.fx_rate)
    fx_staleness_days :=
      if fx_from_currency n.nav_currency = "USD" then some 0
      else
        match fxLookup fxs (fx_from_currency n.nav_currency) n.as_of_date with
        | none => none
        | some f => some (n.as_of_date - f.rate_date) }

/-- vw_nav_usd: one output row per unified NAV row (LEFT JOIN on a key the
unique index makes at-most-one). -/
def vw_nav_usd (rows : List NavRow) (fxs : List FxRate) : List UsdRow :=
  rows.map (convertRow fxs)

theorem fx_foldl_spec (l : List FxRate) :
    ∀ (acc : Option FxRate) (f : FxRate),
      l.foldl fxStep acc = some f →
      (acc = some f ∨ f ∈ l) ∧
      (∀ g ∈ l, g.rate_date ≤ f.rate_date) ∧
      (∀ p, acc = some p → p.rate_date ≤ f.rate_date) := by
  induction l with
  | nil =>
      intro acc f h
      simp only [List.foldl_nil] at h
      refine ⟨Or.inl h, by simp, fun p hp => ?_⟩
      rw [h] at hp
      obtain rfl := Option.some.inj hp
      exact le_refl _
  | cons g l ih =>
      intro acc f h
      rw [List.foldl_cons] at h
      cases acc with
      | none =>
          obtain ⟨hmem, hmax, hacc⟩ := ih (some g) f h
          have hgf : g.rate_date ≤ f.rate_date := hacc g rfl
          refine ⟨Or.inr ?_, fun e he => ?_, fun p hp => by cases hp⟩
          · rcases hmem with h1 | h1
            · obtain rfl := Option.some.inj h1
              exact List.mem_cons_self _ _
            · exact List.mem_cons_of_mem _ h1
          · rcases List.mem_cons.mp he with rfl | he'
            · exact hgf
            · exact hmax e he'
      | some a =>
          by_cases hlt : a.rate_date < g.rate_date
          · have hstep : fxStep (some a) g = some g := by
              simp [fxStep, hlt]
            rw [hstep] at h
            obtain ⟨hmem, hmax, hacc⟩ := ih (some g) f h
            have hgf : g.rate_date ≤ f.rate_date := hacc g rfl
            refine ⟨Or.inr ?_, fun e he => ?_, fun p hp => ?_⟩
            · rcases hmem with h1 | h1
              · obtain rfl := Option.some.inj h1
                exact List.mem_cons_self _ _
              · exact List.mem_cons_of_mem _ h1
            · rcases List.mem_cons.mp he with rfl | he'
              · exact hgf
              · exact hmax e he'
            · obtain rfl := Option.some.inj hp
              exact le_trans (le_of_lt hlt) hgf
          · have hstep : fxStep (some a) g = some a := by
              simp [fxStep, hlt]
            rw [hstep] at h
            obtain ⟨hmem, hmax, hacc⟩ := ih (some a) f h
            have haf : a.rate_date ≤ f.rate_date := hacc a rfl
            refine ⟨?_, fun e he => ?_, fun p hp => ?_⟩
            · rcases hmem with h1 | h1
              · exact Or.inl h1
              · exact Or.inr (List.mem_cons_of_mem _ h1)
            · rcases List.mem_cons.mp he with rfl | he'
              · exact le_trans (le_of_not_lt hlt) haf
              · exact hmax e he'
            · obtain rfl := Option.some.inj hp
              exact haf

theorem fxLookup_spec (fxs : List FxRate) (c : String) (d : Int) (f : FxRate)
    (h : fxLookup fxs c d = some f) :
    (f.from_currency = c ∧ f.to_currency = "USD" ∧ f.rate_date ≤ d) ∧
    f ∈ fxs ∧
    ∀ g ∈ fxs, g.from_currency = c → g.to_currency = "USD" →
      g.rate_date ≤ d → g.rate_date ≤ f.rate_date := by
  unfold fxLookup at h
  obtain ⟨hmem, hmax, -⟩ := fx_foldl_spec _ none f h
  rcases hmem with h1 | h1
  · exact Option.noConfusion h1
  · have hf := List.mem_filter.mp h1
    refine ⟨by simpa using hf.2, hf.1, fun g hg h1 h2 h3 => ?_⟩
    exact hmax g (List.mem_filter.mpr ⟨hg, by simp [h1, h2, h3]⟩)

/-- C3: a non-USD row joined to a rate uses a GBP-style rate with
to_currency USD, matching from-currency, rate_date not after the as-of date
and maximal among eligible rates; the USD price is
nav_price * unit_factor * fx_rate and the staleness is
as_of_date - rate_date, which is never negative; the row stays in the view. -/
theorem vw_nav_usd_conversion (rows : List NavRow) (fxs : List FxRate)
    (n : NavRow) (hn : n ∈ rows)
    (hnz : fx_from_currency n.nav_currency ≠ "USD") (f : FxRate)
    (hf : fxLookup fxs (fx_from_currency n.nav_currency) n.as_of_date =
      some f) :
    convertRow fxs n ∈ vw_nav_usd rows fxs ∧
    f.from_currency = fx_from_currency n.nav_currency ∧
    f.to_currency = "USD" ∧ f.rate_date ≤ n.as_of_date ∧
    (∀ g ∈ fxs, g.from_currency = fx_from_currency n.nav_currency →
      g.to_currency = "USD" → g.rate_date ≤ n.as_of_date →
      g.rate_date ≤ f.rate_date) ∧
    (convertRow fxs n).nav_price_usd =
      some (n.nav_price * unit_factor n.nav_currency * f.fx_rate) ∧
    (convertRow fxs n).fx_staleness_days =
      some (n.as_of_date - f.rate_date) ∧
    0 ≤ n.as_of_date - f.rate_date := by
  obtain ⟨⟨hfc, hft, hfd⟩, hfmem, hmax⟩ := fxLookup_spec fxs _ _ f hf
  refine ⟨List.mem_map_of_mem _ hn, hfc, hft, hfd, hmax, ?_, ?_, ?_⟩
  · show (if fx_from_currency n.nav_currency = "USD" then _ else _) = _
    rw [if_neg hnz, hf]
  · show (if fx_from_currency n.nav_currency = "USD" then _ else _) = _
    rw [if_neg hnz, hf]
  · omega

/-- The spec's scenario-8 NAV row: 50 GBX as of 2024-03-01 (day 61 of
2024). -/
def navGBX : NavRow :=
  { source_name := "Financial Times", ticker := "XYZ", nav_price := 50,
    nav_currency := "GBX", as_of_date := 61 }

/-- GBP to USD at 1.25 on 2024-02-28 (day 59). -/
def fxFeb28 : FxRate :=
  { rate_date := 59, from_currency := "GBP", to_currency := "USD",
    fx_rate := 5 / 4 }

/-- GBP to USD at 1.30 on 2024-03-05 (day 65, after the as-of date). -/
def fxMar05 : FxRate :=
  { rate_date := 65, from_currency := "GBP", to_currency := "USD",
    fx_rate := 13 / 10 }

/-- Witness for C3 at the spec's scenario 8: the 2024-02-28 rate (not the
future 2024-03-05 one) converts 50 GBX to 0.625 USD with staleness 2. -/
theorem vw_nav_usd_conversion_witness :
    (convertRow [fxFeb28, fxMar05] navGBX).nav_price_usd = some (5 / 8) ∧
    (convertRow [fxFeb28, fxMar05] navGBX).fx_staleness_days = some 2 ∧
    (0 : Int) ≤ 61 - 59 := by
  obtain ⟨-, -, -, -, -, husd, hstale, -⟩ :=
    vw_nav_usd_conversion [navGBX] [fxFeb28, fxMar05] navGBX
      (List.mem_cons_self _ _) (by decide) fxFeb28 rfl
  refine ⟨?_, ?_, by decide⟩
  · rw [husd]
    show some ((50 : ℚ) * (1 / 100) * (5 / 4)) = some (5 / 8)
    norm_num
  · rw [hstale]
    rfl

/-- C7: a non-USD row with no eligible FX rate on or before its as-of date
is still present in vw_nav_usd (the view keeps one output row per input
row) with NULL nav_price_usd and NULL fx_staleness_days. -/
theorem vw_nav_usd_missing_rate (rows : List NavRow) (fxs : List FxRate)
    (n : NavRow) (hn : n ∈ rows)
    (hnz : fx_from_currency n.nav_currency ≠ "USD")
    (hmiss : fxCandidates fxs (fx_from_currency n.nav_currency)
      n.as_of_date = []) :
    convertRow fxs n ∈ vw_nav_usd rows fxs ∧
    (vw_nav_usd rows fxs).length = rows.length ∧
    (convertRow fxs n).nav_price_usd = none ∧
    (convertRow fxs n).fx_staleness_days = none := by
  have hlook : fxLookup fxs (fx_from_currency n.nav_currency)
      n.as_of_date = none := by
    unfold fxLookup
    rw [hmiss]
    rfl
  refine ⟨List.mem_map_of_mem _ hn, List.length_map _ _, ?_, ?_⟩
  · show (if fx_from_currency n.nav_currency = "USD" then _ else _) = _
    rw [if_neg hnz, hlook]
  · show (if fx_from_currency n.nav_currency = "USD" then _ else _) = _
    rw [if_neg hnz, hlook]

/-- The spec's scenario-10 NAV row: a THB-denominated NAV with no THB rate
anywhere. -/
def navTHB : NavRow :=
  { source_name := "Yahoo Finance", ticker := "TH1", nav_price := 10,
    nav_currency := "THB", as_of_date := 61 }

/-- Witness for C7 at scenario 10: the THB row stays in the view with NULL
USD price and NULL staleness when only GBP rates exist. -/
theorem vw_nav_usd_missing_rate_witness :
    convertRow [fxFeb28, fxMar05] navTHB ∈
      vw_nav_usd [navTHB] [fxFeb28, fxMar05] ∧
    (vw_nav_usd [navTHB] [fxFeb28, fxMar05]).length = 1 ∧
    (convertRow [fxFeb28, fxMar05] navTHB).nav_price_usd = none ∧
    (convertRow [fxFeb28, fxMar05] navTHB).fx_staleness_days = none :=
  vw_nav_usd_missing_rate [navTHB] [fxFeb28, fxMar05] navTHB
    (List.mem_cons_self _ _) (by decide) (by decide)

/-- A row of one source's daily NAV staging table (fields selected by the
latest_nav CTE in publish_ready_isin_serving.py). -/
structure RawNavRow where
  ticker : String
  as_of_date : Int
  nav_price : ℚ
  currency : String
deriving Repr, DecidableEq

/-- One row of the UNION ALL inside the latest_nav CTE. -/
structure PoolNavRow where
  ticker : String
  nav_source : String
  as_of_date : Int
  nav_price : ℚ
  nav_currency : String
deriving Repr, DecidableEq

/-- The UNION ALL pooling the three NAV staging tables, tagged FT, YF, SA
in that order, currency uppercased. -/
def poolNavRows (ft yf sa : List RawNavRow) : List PoolNavRow :=
  ft.map (fun r =>
    ⟨r.ticker, "Financial Times", r.as_of_date, r.nav_price,
      pyUpper r.currency⟩) ++
  yf.map (fun r =>
    ⟨r.ticker, "Yahoo Finance", r.as_of_date, r.nav_price,
      pyUpper r.currency⟩) ++
  sa.map (fun r =>
    ⟨r.ticker, "Stock Analysis", r.as_of_date, r.nav_price,
      pyUpper r.currency⟩)

/-- The CASE v.nav_source ranking in the ROW_NUMBER ORDER BY (lines 55-60):
FT=1, YF=2, SA=3, anything else 9. -/
def nav_source_rank (s : String) : Nat :=
  if s = "Financial Times" then 1
  else if s = "Yahoo Finance" then 2
  else if s = "Stock Analysis" then 3
  else 9

/-- Strictly earlier in the ROW_NUMBER ordering: later as_of_date first,
then lower source rank. -/
def navBetterB (a b : PoolNavRow) : Bool :=
  decide (b.as_of_date < a.as_of_date) ||
    (decide (a.as_of_date = b.as_of_date) &&
      decide (nav_source_rank a.nav_source < nav_source_rank b.nav_source))

/-- One step of taking the first row of the ordering (rn = 1): a strictly
better row replaces the held one. -/
def navPickStep (acc : Option PoolNavRow) (r : PoolNavRow) :
    Option PoolNavRow :=
  match acc with
  | none => some r
  | some p => if navBetterB r p then some r else acc

/-- The rn = 1 row of one partition. -/
def pickLatest (l : List PoolNavRow) : Option PoolNavRow :=
  l.foldl navPickStep none

/-- The PARTITION BY key UPPER(v.ticker). -/
def navKey (r : PoolNavRow) : String := pyUpper r.ticker

/-- The latest_nav CTE (publish_ready_isin_serving.py lines 41-89): one row
per distinct uppercased ticker, the rn = 1 row of its partition. -/
def latest_nav (pool : List PoolNavRow) : List (String × PoolNavRow) :=
  (firstDedupS (pool.map navKey)).filterMap
    (fun k => (pickLatest (pool.filter (fun r => navKey r = k))).map
      (fun r => (k, r)))

theorem not_navBetter_iff (d c : PoolNavRow) :
    ¬ (navBetterB d c = true) ↔
      (d.as_of_date ≤ c.as_of_date ∧
        (d.as_of_date = c.as_of_date →
          nav_source_rank c.nav_source ≤ nav_source_rank d.nav_source)) := by
  unfold navBetterB
  simp only [Bool.or_eq_true, Bool.and_eq_true, decide_eq_true_eq, not_or,
    not_and, not_lt]

theorem navBetter_trans {a b c : PoolNavRow}
    (h1 : navBetterB a b = true) (h2 : navBetterB b c = true) :
    navBetterB a c = true := by
  unfold navBetterB at *
  simp only [Bool.or_eq_true, Bool.and_eq_true, decide_eq_true_eq] at *
  omega

theorem navNotBetter_trans {a b c : PoolNavRow}
    (h1 : ¬ navBetterB a b = true) (h2 : ¬ navBetterB b c = true) :
    ¬ navBetterB a c = true := by
  rw [not_navBetter_iff] at h1 h2 ⊢
  obtain ⟨h1a, h1b⟩ := h1
  obtain ⟨h2a, h2b⟩ := h2
  refine ⟨le_trans h1a h2a, fun he => ?_⟩
  have hab : a.as_of_date = b.as_of_date := by omega
  have hbc : b.as_of_date = c.as_of_date := by omega
  exact le_trans (h2b hbc) (h1b hab)

theorem nav_foldl_spec (l : List PoolNavRow) :
    ∀ (acc : Option PoolNavRow) (c : PoolNavRow),
      l.foldl navPickStep acc = some c →
      (acc = some c ∨ c ∈ l) ∧
      (∀ d ∈ l, ¬ navBetterB d c = true) ∧
      (∀ p, acc = some p → ¬ navBetterB p c = true) := by
  induction l with
  | nil =>
      intro acc c h
      simp only [List.foldl_nil] at h
      refine ⟨Or.inl h, by simp, fun p hp => ?_⟩
      rw [h] at hp
      obtain rfl := Option.some.inj hp
      rw [not_navBetter_iff]
      exact ⟨le_refl _, fun _ => le_refl _⟩
  | cons d l ih =>
      intro acc c h
      rw [List.foldl_cons] at h
      cases acc with
      | none =>
          obtain ⟨hmem, hmin, hacc⟩ := ih (some d) c h
          have hdc := hacc d rfl
          refine ⟨Or.inr ?_, fun e he => ?_, fun p hp => by cases hp⟩
          · rcases hmem with h1 | h1
            · obtain rfl := Option.some.inj h1
              exact List.mem_cons_self _ _
            · exact List.mem_cons_of_mem _ h1
          · rcases List.mem_cons.mp he with rfl | he'
            · exact hdc
            · exact hmin e he'
      | some a =>
          by_cases hba : navBetterB d a = true
          · have hstep : navPickStep (some a) d = some d := by
              simp [navPickStep, hba]
            rw [hstep] at h
            obtain ⟨hmem, hmin, hacc⟩ := ih (some d) c h
            have hdc := hacc d rfl
            refine ⟨Or.inr ?_, fun e he => ?_, fun p hp => ?_⟩
            · rcases hmem with h1 | h1
              · obtain rfl := Option.some.inj h1
                exact List.mem_cons_self _ _
              · exact List.mem_cons_of_mem _ h1
            · rcases List.mem_cons.mp he with rfl | he'
              · exact hdc
              · exact hmin e he'
            · obtain rfl := Option.some.inj hp
              intro hac
              exact hdc (navBetter_trans hba hac)
          · have hstep : navPickStep (some a) d = some a := by
              simp [navPickStep, hba]
            rw [hstep] at h
            obtain ⟨hmem, hmin, hacc⟩ := ih (some a) c h
            have hac := hacc a rfl
            refine ⟨?_, fun e he => ?_, fun p hp => ?_⟩
            · rcases hmem with h1 | h1
              · exact Or.inl h1
              · exact Or.inr (List.mem_cons_of_mem _ h1)
            · rcases List.mem_cons.mp he with rfl | he'
              · exact navNotBetter_trans hba hac
              · exact hmin e he'
            · obtain rfl := Option.some.inj hp
              exact hac

theorem nav_foldl_some (l : List PoolNavRow) (p : PoolNavRow) :
    (l.foldl navPickStep (some p)).isSome := by
  induction l generalizing p with
  | nil => rfl
  | cons d l ih =>
      rw [List.foldl_cons]
      show (l.foldl navPickStep
        (if navBetterB d p then some d else some p)).isSome
      split
      · exact ih d
      · exact ih p

theorem firstDedupS_nodup (l : List String) : (firstDedupS l).Nodup := by
  induction l with
  | nil => exact List.nodup_nil
  | cons x l ih =>
      refine List.nodup_cons.mpr ⟨?_, ih.filter _⟩
      intro hx
      have := (List.mem_filter.mp hx).2
      simp at this

theorem mem_firstDedupS {l : List String} {x : String} :
    x ∈ firstDedupS l ↔ x ∈ l := by
  induction l with
  | nil => simp [firstDedupS]
  | cons y l ih =>
      show x ∈ y :: (firstDedupS l).filter (fun z => z ≠ y) ↔ _
      by_cases hxy : x = y
      · subst hxy
        simp
      · simp [List.mem_filter, hxy, ih]

theorem latest_nav_keys_nodup (pool : List PoolNavRow) :
    ((latest_nav pool).map Prod.fst).Nodup := by
  have hsub : ∀ ks : List String,
      ((ks.filterMap (fun k => (pickLatest (pool.filter
        (fun r => navKey r = k))).map (fun r => (k, r)))).map
          Prod.fst).Sublist ks := by
    intro ks
    induction ks with
    | nil => simp
    | cons k ks ih =>
        rw [List.filterMap_cons]
        cases hp : (pickLatest (pool.filter (fun r => navKey r = k))).map
            (fun r => (k, r)) with
        | none => exact ih.cons k
        | some e =>
            obtain ⟨r, -, rfl⟩ := Option.map_eq_some'.mp hp
            rw [List.map_cons]
            exact ih.cons₂ k
  exact List.Nodup.sublist (hsub _) (firstDedupS_nodup _)

theorem latest_nav_entry {pool : List PoolNavRow} {k : String}
    {r : PoolNavRow} (hk : (k, r) ∈ latest_nav pool) :
    pickLatest (pool.filter (fun x => navKey x = k)) = some r := by
  obtain ⟨k', -, he⟩ := List.mem_filterMap.mp hk
  obtain ⟨r', hr', heq⟩ := Option.map_eq_some'.mp he
  obtain ⟨rfl, rfl⟩ := Prod.mk.injEq k' r' k r ▸ heq
  exact hr'

theorem latest_nav_exists {pool : List PoolNavRow} {t : String}
    (h : ∃ r ∈ pool, navKey r = t) :
    ∃ r, (t, r) ∈ latest_nav pool := by
  obtain ⟨r0, hr0, hkey⟩ := h
  have hkmem : t ∈ firstDedupS (pool.map navKey) :=
    mem_firstDedupS.mpr (by rw [← hkey]; exact List.mem_map_of_mem _ hr0)
  have hgrp : r0 ∈ pool.filter (fun x => navKey x = t) :=
    List.mem_filter.mpr ⟨hr0, by simpa using hkey⟩
  have hsome : (pickLatest (pool.filter (fun x => navKey x = t))).isSome := by
    cases hl : pool.filter (fun x => navKey x = t) with
    | nil =>
        rw [hl] at hgrp
        cases hgrp
    | cons a l =>
        show (List.foldl navPickStep (navPickStep none a) l).isSome
        exact nav_foldl_some l a
  obtain ⟨w, hw⟩ := Option.isSome_iff_exists.mp hsome
  exact ⟨w, List.mem_filterMap.mpr ⟨t, hkmem, by rw [hw]; rfl⟩⟩

/-- Concrete NAV staging row used by the C8 counterexample: ticker ABC as
of day 61. -/
def rawABC : RawNavRow :=
  { ticker := "ABC", as_of_date := 61, nav_price := 1, currency := "USD" }

/-- C8 counterexample: with an FT row and a YF row for the same ticker and
date, latest_nav keeps only the FT row — no output row carries the YF
source, so the record is not one row per (ticker, source). -/
theorem latest_nav_counterexample :
    ¬ (∀ r ∈ poolNavRows [rawABC] [rawABC] [],
        ∃ e ∈ latest_nav (poolNavRows [rawABC] [rawABC] []),
          pyUpper e.2.ticker = pyUpper r.ticker ∧
          e.2.nav_source = r.nav_source) := by
  decide

/-- C8 amended: latest_nav keeps exactly one row per distinct uppercased
ticker present in the pooled NAV rows (not one per (ticker, source)); the
kept row has the most recent as_of_date of its ticker group, equal dates
broken by the source ranking FT(1) < YF(2) < SA(3). -/
theorem latest_nav_amended (pool : List PoolNavRow) :
    ((latest_nav pool).map Prod.fst).Nodup ∧
    (∀ k r, (k, r) ∈ latest_nav pool →
      r ∈ pool ∧ navKey r = k ∧
      ∀ d ∈ pool, navKey d = k →
        d.as_of_date ≤ r.as_of_date ∧
        (d.as_of_date = r.as_of_date →
          nav_source_rank r.nav_source ≤ nav_source_rank d.nav_source)) ∧
    (∀ t, (∃ r ∈ pool, navKey r = t) → ∃ r, (t, r) ∈ latest_nav pool) ∧
    (nav_source_rank "Financial Times" < nav_source_rank "Yahoo Finance" ∧
      nav_source_rank "Yahoo Finance" < nav_source_rank "Stock Analysis") := by
  refine ⟨latest_nav_keys_nodup pool, ?_, fun t h => latest_nav_exists h,
    by decide⟩
  intro k r hk
  have hpick := latest_nav_entry hk
  unfold pickLatest at hpick
  obtain ⟨hmem, hmax, -⟩ := nav_foldl_spec _ none r hpick
  rcases hmem with h1 | h1
  · exact Option.noConfusion h1
  · have hf := List.mem_filter.mp h1
    refine ⟨hf.1, by simpa using hf.2, fun d hd hdk => ?_⟩
    have hnb := hmax d (List.mem_filter.mpr ⟨hd, by simpa using hdk⟩)
    exact (not_navBetter_iff d r).mp hnb

/-- Witness for C8's amended theorem: the two-source pool for ABC yields an
output row keyed "ABC". -/
theorem latest_nav_amended_witness :
    ∃ r, ("ABC", r) ∈ latest_nav (poolNavRows [rawABC] [rawABC] []) :=
  (latest_nav_amended (poolNavRows [rawABC] [rawABC] [])).2.2.1 "ABC"
    (by decide)
